import Mathlib

/-!
Verification development for the `fors` HLS streaming client.

The definitions below are a shallow embedding of the Rust sources:

* `src/hls.rs` — playlist parsing (`parse_master_playlist`,
  `parse_media_playlist`, `parse_attribute_line`) and the streaming loop
  (`stream_to_writer`);
* `src/hls/twitch_policy.rs` — the ad-classification policy;
* `src/main.rs` — quality selection (`select_variant`).

Machine integers (`u64`, `u32`) are modelled as `Nat` (the code never
overflows them in the properties considered; `saturating_sub` is `Nat`
subtraction).  `f64` durations are modelled as `ℚ`; the fragment of
`str::parse::<f64>` used by playlists (plain decimal literals with an
optional sign and fraction) is modelled by `parseDecimal`, and special
forms (exponents, `inf`, `nan`) are out of the modelled fragment.
URLs are modelled as strings; `resolve_url` is modelled as string
concatenation for relative inputs, which is faithful enough for every
property below (none depends on URL normalisation).  I/O performed by the
streaming loop (HTTP fetches, sink writes) is reified into a trace of
`Action` values, with fetch outcomes supplied by an oracle.
-/

/-! ## Character and string utilities -/

/-- Whitespace as recognised by `str::trim` (the ASCII fragment that can
occur in playlist lines). -/
def isWsChar (c : Char) : Bool :=
  c == ' ' || c == '\t' || c == '\n' || c == '\r'

/-- Model of `str::trim` on a character list: drop whitespace from both
ends. -/
def trimL (cs : List Char) : List Char :=
  ((cs.dropWhile isWsChar).reverse.dropWhile isWsChar).reverse

/-- `pat` is a prefix of `cs` (model of `str::starts_with`). -/
def startsWithL : List Char → List Char → Bool
  | [], _ => true
  | _ :: _, [] => false
  | p :: ps, c :: cs => p == c && startsWithL ps cs

/-- Worker for `trimStartMatchesL`; the fuel bounds the number of drops
(each drop removes at least one character of a non-empty pattern). -/
def trimStartMatchesGo : Nat → List Char → List Char → List Char
  | 0, _, cs => cs
  | fuel + 1, pat, cs =>
    if !pat.isEmpty && startsWithL pat cs then
      trimStartMatchesGo fuel pat (cs.drop pat.length)
    else cs

/-- Model of `str::trim_start_matches`: repeatedly drop the pattern from
the front while it is a prefix.  (For every line shape in the playlists at
hand the pattern occurs at most once, but the model keeps the repetition
to stay faithful.) -/
def trimStartMatchesL (pat cs : List Char) : List Char :=
  trimStartMatchesGo (cs.length + 1) pat cs

/-- Model of `str::split_once`: split at the first occurrence of `c`. -/
def splitOnceL (c : Char) : List Char → Option (List Char × List Char)
  | [] => none
  | x :: xs =>
    if x = c then some ([], xs)
    else match splitOnceL c xs with
      | some (a, b) => some (x :: a, b)
      | none => none

/-- Does `needle` occur as a contiguous substring of `hay`
(model of `str::contains`)? -/
def containsL (needle : List Char) : List Char → Bool
  | [] => needle.isEmpty
  | c :: cs => startsWithL needle (c :: cs) || containsL needle cs

/-- Model of `str::to_lowercase` on the ASCII fragment. -/
def lowerL (cs : List Char) : List Char :=
  cs.map Char.toLower

/-- Model of `str::trim_matches('"')`: strip every leading and every
trailing double-quote character. -/
def trimQuotesL (cs : List Char) : List Char :=
  ((cs.dropWhile (· == '"')).reverse.dropWhile (· == '"')).reverse

/-! ## Numeric parsing -/

/-- Value of a non-empty all-digit character list, `none` otherwise. -/
def digitsVal : List Char → Option Nat
  | [] => none
  | cs =>
    if cs.all Char.isDigit then
      some (cs.foldl (fun acc c => acc * 10 + (c.toNat - '0'.toNat)) 0)
    else none

/-- Model of `str::parse::<u64>`: an optional leading `+`, then one or
more ASCII digits, rejecting values outside the `u64` range. -/
def parseU64 (cs : List Char) : Option Nat :=
  let body := match cs with
    | '+' :: rest => rest
    | other => other
  match digitsVal body with
  | some v => if v < 2 ^ 64 then some v else none
  | none => none

/-- Model of the fragment of `str::parse::<f64>` exercised by playlists:
an optional sign, then a plain decimal literal (`123`, `123.45`, `.5`,
`7.`).  Exponent, infinity and NaN forms are outside the modelled
fragment. -/
def parseDecimal (cs : List Char) : Option ℚ :=
  let (sign, body) : Int × List Char := match cs with
    | '-' :: rest => (-1, rest)
    | '+' :: rest => (1, rest)
    | other => (1, other)
  match splitOnceL '.' body with
  | none =>
    match digitsVal body with
    | some v => some (mkRat (sign * v) 1)
    | none => none
  | some (intPart, fracPart) =>
    if intPart.isEmpty && fracPart.isEmpty then none
    else if intPart.all Char.isDigit && fracPart.all Char.isDigit then
      let iv := intPart.foldl (fun acc c => acc * 10 + (c.toNat - '0'.toNat)) 0
      let fv := fracPart.foldl (fun acc c => acc * 10 + (c.toNat - '0'.toNat)) 0
      some (mkRat (sign * (iv * 10 ^ fracPart.length + fv)) (10 ^ fracPart.length))
    else none

/-! ## Attribute-line tokenizer (`parse_attribute_line`, hls.rs:502-536) -/

/-- The character fold of `parse_attribute_line`: split on commas outside
double-quoted regions, trimming each collected piece and dropping empty
pieces.  `acc` holds the pieces collected so far, `cur` the piece being
built, `inQuotes` the quote state. -/
def attrPiecesGo (acc : List (List Char)) (cur : List Char) (inQuotes : Bool) :
    List Char → List (List Char)
  | [] => acc ++ (if cur.isEmpty then [] else [trimL cur])
  | c :: rest =>
    if c = ',' && !inQuotes then
      attrPiecesGo (acc ++ (if cur.isEmpty then [] else [trimL cur])) [] inQuotes rest
    else if c = '"' then
      attrPiecesGo acc (cur ++ [c]) (!inQuotes) rest
    else
      attrPiecesGo acc (cur ++ [c]) inQuotes rest

/-- Comma-separated pieces of an attribute line (commas inside quotes do
not split). -/
def attrPieces (cs : List Char) : List (List Char) :=
  attrPiecesGo [] [] false cs

/-- Model of `parse_attribute_line` (hls.rs:502-536): tokenize into
pieces, split each piece once on `=`, trim key and value, and strip the
double quotes surrounding the value. -/
def parseAttrPairsL (cs : List Char) : List (List Char × List Char) :=
  (attrPieces cs).filterMap fun piece =>
    (splitOnceL '=' piece).map fun kv =>
      (trimL kv.1, trimQuotesL (trimL kv.2))

/-- String-level wrapper of `parseAttrPairsL`. -/
def parseAttributeLine (s : String) : List (String × String) :=
  (parseAttrPairsL s.data).map fun kv => (String.mk kv.1, String.mk kv.2)

/-! ## Ad classification policy (`twitch_policy.rs`) -/

/-- State of `TwitchHlsPolicy`: the id/duration pair of the most recent
ad-classified date-range. -/
structure TwitchHlsPolicy where
  lastDaterange : Option (Option String × Option ℚ)
deriving Repr, DecidableEq

/-- `TwitchHlsPolicy::new` -/
def TwitchHlsPolicy.new : TwitchHlsPolicy := ⟨none⟩

/-- `TwitchHlsPolicy::on_daterange` (twitch_policy.rs:13-36): scan the
attributes for `CLASS`, `ID` and `DURATION`; an ad date-range has
`CLASS == "twitch-stitched-ad"` or an `ID` beginning with
`stitched-ad-`, and only then is `last_daterange` updated. -/
def TwitchHlsPolicy.onDaterange (p : TwitchHlsPolicy)
    (attrs : List (String × String)) : TwitchHlsPolicy :=
  let scan := attrs.foldl
    (fun (st : Option String × Option String × Option ℚ) kv =>
      if kv.1 = "CLASS" then (some kv.2, st.2.1, st.2.2)
      else if kv.1 = "ID" then (st.1, some kv.2, st.2.2)
      else if kv.1 = "DURATION" then (st.1, st.2.1, parseDecimal kv.2.data)
      else st)
    (none, none, none)
  let isAd := scan.1 == some "twitch-stitched-ad"
    || (match scan.2.1 with
        | some v => startsWithL "stitched-ad-".data v.data
        | none => false)
  if isAd then { p with lastDaterange := some (scan.2.1, scan.2.2) } else p

/-- `TwitchHlsPolicy::classify_segment` (twitch_policy.rs:38-47): a
segment is an ad when its title contains `amazon` or `stitched-ad`
case-insensitively, or its URI contains `stitched-ad`.  Pure: reads no
policy state. -/
def classifySegment (uri : String) (title : Option String)
    (_isPrefetch : Bool) : Bool :=
  (match title with
   | some t =>
     containsL "amazon".data (lowerL t.data)
       || containsL "stitched-ad".data (lowerL t.data)
   | none => false)
  || containsL "stitched-ad".data uri.data

/-! ## Variant selection (`select_variant`, main.rs:114-126) -/

/-- The fields of `StreamVariant` that quality selection reads. -/
structure StreamVariant where
  label : String
  aliases : List String
  bandwidth : Nat
deriving Repr, DecidableEq

/-- Model of `Iterator::max_by` comparing bandwidths: the fold keeps the
accumulator only when it is strictly greater, so equal maxima resolve to
the later element, as in Rust. -/
def maxByBandwidth (x : StreamVariant) (xs : List StreamVariant) : StreamVariant :=
  xs.foldl (fun a v => if a.bandwidth > v.bandwidth then a else v) x

/-- Model of `Iterator::min_by` comparing bandwidths: the fold replaces
the accumulator only on a strict decrease, so equal minima resolve to the
earlier element, as in Rust. -/
def minByBandwidth (x : StreamVariant) (xs : List StreamVariant) : StreamVariant :=
  xs.foldl (fun a v => if v.bandwidth < a.bandwidth then v else a) x

/-- Model of `select_variant` (main.rs:114-126). -/
def selectVariant (variants : List StreamVariant) (quality : String) :
    Option StreamVariant :=
  let q := String.mk (lowerL quality.data)
  if q = "best" then
    match variants with
    | [] => none
    | x :: xs => some (maxByBandwidth x xs)
  else if q = "worst" then
    match variants with
    | [] => none
    | x :: xs => some (minByBandwidth x xs)
  else
    variants.find? fun v => v.aliases.any fun a => a = q

/-! ## Master-playlist bandwidth attribute fold (hls.rs:63-80)

The attribute loop of `parse_master_playlist` is projected onto its
`bandwidth` variable: the `BANDWIDTH` arm always overwrites it and the
`AVERAGE-BANDWIDTH` arm overwrites it only under the guard
`bandwidth == 0`; no other arm reads or writes `bandwidth`. -/

/-- One step of the attribute loop, restricted to the bandwidth
variable. -/
def bandwidthStep (bw : Nat) (kv : String × String) : Nat :=
  if kv.1 = "BANDWIDTH" then (parseU64 kv.2.data).getD 0
  else if kv.1 = "AVERAGE-BANDWIDTH" && bw == 0 then (parseU64 kv.2.data).getD 0
  else bw

/-- Bandwidth produced by folding the attribute list, starting from the
initial value `0` (hls.rs:63). -/
def bandwidthOfAttrs (attrs : List (String × String)) : Nat :=
  attrs.foldl bandwidthStep 0

/-! ## Media playlist parser (`parse_media_playlist`, hls.rs:352-492)

`debug_ads` only produces log lines in the source and is omitted.  Lines
are supplied as a list of strings (the result of `str::lines`) and each
is trimmed before dispatch, as in the source. -/

/-- Model of `resolve_url` (hls.rs:494-500): an input that already looks
absolute is kept, otherwise it is joined to the base.  URL normalisation
is not modelled; no property below depends on it. -/
def resolveUrl (base : String) (input : List Char) : String :=
  if containsL "://".data input then String.mk input else base ++ String.mk input

/-- `MediaSegment` (hls.rs:33-42), with URLs as strings and `f64` as `ℚ`. -/
structure MediaSegment where
  uri : String
  init : Option String
  sequence : Nat
  duration : ℚ
  prefetch : Bool
  ad : Bool
  discontinuity : Bool
deriving Repr, DecidableEq

/-- The local variables of `parse_media_playlist` (hls.rs:358-367). -/
structure ParseState where
  targetDuration : ℚ
  mediaSequence : Nat
  endList : Bool
  segments : List MediaSegment
  pendingDuration : Option ℚ
  pendingTitle : Option String
  lastDuration : Option ℚ
  discontinuityNext : Bool
  currentInit : Option String
  policy : TwitchHlsPolicy
deriving Repr, DecidableEq

/-- Initial parser state (hls.rs:358-367): `target_duration = 4.0`,
`media_sequence = 0`, everything else empty. -/
def initParseState : ParseState :=
  ⟨4, 0, false, [], none, none, none, false, none, TwitchHlsPolicy.new⟩

/-- One trimmed line of `parse_media_playlist`'s loop (hls.rs:369-477).
The branches appear in source order; `line` is already trimmed. -/
def stepLineL (lowLatency : Bool) (base : String) (st : ParseState)
    (line : List Char) : ParseState :=
  if startsWithL "#EXT-X-TARGETDURATION:".data line then
    match splitOnceL ':' line with
    | some kv =>
      match parseDecimal kv.2 with
      | some parsed => { st with targetDuration := parsed }
      | none => st
    | none => st
  else if startsWithL "#EXT-X-MEDIA-SEQUENCE:".data line then
    match splitOnceL ':' line with
    | some kv =>
      match parseU64 kv.2 with
      | some parsed => { st with mediaSequence := parsed }
      | none => st
    | none => st
  else if startsWithL "#EXTINF:".data line then
    let value := trimStartMatchesL "#EXTINF:".data line
    let parts := splitOnceL ',' value
    let durationPart := match parts with
      | some ab => ab.1
      | none => value
    let titlePart := match parts with
      | some ab => some ab.2
      | none => none
    let pd := parseDecimal durationPart
    let pt := (titlePart.map fun t => String.mk (trimL t)).filter fun t => !t.isEmpty
    { st with pendingDuration := pd, pendingTitle := pt, lastDuration := pd }
  else if startsWithL "#EXT-X-DISCONTINUITY".data line then
    { st with discontinuityNext := true }
  else if startsWithL "#EXT-X-TWITCH-PREFETCH:".data line then
    if !lowLatency then st
    else
      let uri := resolveUrl base (trimStartMatchesL "#EXT-X-TWITCH-PREFETCH:".data line)
      let sequence := st.mediaSequence + st.segments.length
      let duration := st.lastDuration.getD st.targetDuration
      let adFlag := classifySegment uri none true
      { st with
        segments := st.segments ++
          [⟨uri, st.currentInit, sequence, if adFlag then 0 else duration,
            true, adFlag, st.discontinuityNext⟩],
        discontinuityNext := false }
  else if startsWithL "#EXT-X-DATERANGE:".data line then
    let attrs := (parseAttrPairsL (trimStartMatchesL "#EXT-X-DATERANGE:".data line)).map
      fun kv => (String.mk kv.1, String.mk kv.2)
    { st with policy := st.policy.onDaterange attrs }
  else if startsWithL "#EXT-X-ENDLIST".data line then
    { st with endList := true }
  else if startsWithL "#EXT-X-MAP:".data line then
    let attrs := parseAttrPairsL (trimStartMatchesL "#EXT-X-MAP:".data line)
    match attrs.find? fun kv => kv.1 = "URI".data with
    | some kv => { st with currentInit := some (resolveUrl base kv.2) }
    | none => st
  else if startsWithL "#".data line then st
  else
    match st.pendingDuration with
    | some duration =>
      let uri := resolveUrl base line
      let sequence := st.mediaSequence + st.segments.length
      let adFlag := classifySegment uri st.pendingTitle false
      { st with
        pendingDuration := none, pendingTitle := none,
        segments := st.segments ++
          [⟨uri, st.currentInit, sequence, if adFlag then 0 else duration,
            false, adFlag, st.discontinuityNext⟩],
        discontinuityNext := false }
    | none => st

/-- Fold of `stepLineL` over the (trimmed) lines of a playlist body,
starting from the initial parser state. -/
def parseLines (lowLatency : Bool) (base : String) (lines : List String) :
    ParseState :=
  lines.foldl (fun st l => stepLineL lowLatency base st (trimL l.data)) initParseState

/-- `MediaPlaylist` (hls.rs:24-31). -/
structure MediaPlaylist where
  targetDuration : ℚ
  endList : Bool
  segments : List MediaSegment
  adsActive : Bool
  adDaterange : Option (Option String × Option ℚ)
deriving Repr, DecidableEq

/-- Model of `parse_media_playlist` (hls.rs:352-492): fold the lines,
fail with `NoSegments` when nothing was appended, and mark
`ads_active` when any segment is ad-classified (hls.rs:479-491). -/
def parseMediaPlaylist (lowLatency : Bool) (base : String)
    (lines : List String) : Except String MediaPlaylist :=
  let st := parseLines lowLatency base lines
  if st.segments.isEmpty then .error "No segments found in media playlist"
  else .ok ⟨st.targetDuration, st.endList, st.segments,
    st.segments.any (·.ad), st.policy.lastDaterange⟩

/-! ## Streaming loop (`stream_to_writer`, hls.rs:117-350)

The loop's I/O is reified: segment and init downloads/writes become
`StreamAction` values, and download success is decided by an oracle
`fetchOk : String → Bool` (a failed `send()` and a non-2xx
`error_for_status()` are merged into one failure, both of which make the
loop propagate an error, hls.rs:293-298). -/

/-- The per-iteration segment-walk state of `stream_to_writer`
(hls.rs:125-131, 210, 226). -/
structure WalkState where
  lastSequence : Option Nat
  lastInit : Option String
  hadContent : Bool
  wroteSegment : Bool
  warnedDiscontinuity : Bool
deriving Repr, DecidableEq

/-- Walk state at loop entry (hls.rs:125-131, 210, 226). -/
def initWalkState : WalkState :=
  ⟨none, none, false, false, false⟩

/-- Observable I/O of the segment walk: a GET of an initialization
segment, its bytes reaching the sink, a GET of a media segment, and its
bytes reaching the sink. -/
inductive StreamAction where
  | fetchInit (uri : String)
  | writeInit (uri : String)
  | fetchSeg (sequence : Nat) (uri : String)
  | writeSeg (sequence : Nat) (uri : String)
deriving Repr, DecidableEq

/-- The initialization-segment block of the walk (hls.rs:257-279): when
the segment carries an init URI differing from `last_init` (or none is
recorded), GET it and write its bytes; a failed GET propagates
(hls.rs:264-271).  Note that a successful init write already sets
`had_content` (hls.rs:276). -/
def initBlock (fetchOk : String → Bool) (st : WalkState) (seg : MediaSegment) :
    WalkState × List StreamAction × Bool :=
  match seg.init with
  | some iu =>
    let needsInit : Bool := match st.lastInit with
      | some u => u ≠ iu
      | none => true
    if needsInit then
      if fetchOk iu then
        ({ st with lastInit := some iu, hadContent := true, wroteSegment := true },
         [StreamAction.fetchInit iu, StreamAction.writeInit iu], false)
      else (st, [StreamAction.fetchInit iu], true)
    else (st, [], false)
  | none => (st, [], false)

/-- The media-segment download of the walk (hls.rs:293-316): GET the
segment URI and write its bytes, advancing `last_sequence` and setting
`had_content` and `wrote_segment`; a failed GET propagates. -/
def fetchBlock (fetchOk : String → Bool) (st1 : WalkState) (seg : MediaSegment)
    (acts : List StreamAction) : WalkState × List StreamAction × Bool :=
  if fetchOk seg.uri then
    ({ st1 with lastSequence := some seg.sequence, hadContent := true, wroteSegment := true },
     acts ++ [StreamAction.fetchSeg seg.sequence seg.uri,
       StreamAction.writeSeg seg.sequence seg.uri], false)
  else (st1, acts ++ [StreamAction.fetchSeg seg.sequence seg.uri], true)

/-- The non-ad discontinuity reset at the top of the walk body
(hls.rs:228-231). -/
def resetState (inAds : Bool) (st : WalkState) (seg : MediaSegment) : WalkState :=
  if seg.discontinuity && !inAds then
    { st with lastSequence := none, lastInit := none }
  else st

/-- The sequence-cursor skip test (hls.rs:233-237). -/
def skipCheck (st : WalkState) (seg : MediaSegment) : Bool :=
  match st.lastSequence with
  | some last => seg.sequence ≤ last
  | none => false

/-- The walk body after the discontinuity reset (hls.rs:233-317):
sequence-cursor skip, ad suppression, conditional init download, then
the segment download. -/
def stepSegCore (fetchOk : String → Bool) (inAds : Bool) (st : WalkState)
    (seg : MediaSegment) : WalkState × List StreamAction × Bool :=
  if skipCheck st seg then (st, [], false)
  else if seg.ad then
    ({ st with
        warnedDiscontinuity :=
          st.warnedDiscontinuity || (!inAds && seg.discontinuity),
        wroteSegment := true,
        lastSequence := some seg.sequence }, [], false)
  else
    if (initBlock fetchOk st seg).2.2 then
      ((initBlock fetchOk st seg).1, (initBlock fetchOk st seg).2.1, true)
    else
      fetchBlock fetchOk (initBlock fetchOk st seg).1 seg (initBlock fetchOk st seg).2.1

/-- Processing of one segment in the walk (hls.rs:227-317): non-ad
discontinuity reset, sequence-cursor skip, ad suppression, conditional
init download, then the segment download.  The `Bool` result is true when
a download failed and the loop propagates the error (hls.rs:264-271,
293-298). -/
def stepSeg (fetchOk : String → Bool) (inAds : Bool) (st : WalkState)
    (seg : MediaSegment) : WalkState × List StreamAction × Bool :=
  stepSegCore fetchOk inAds (resetState inAds st seg) seg

/-- The segment walk (hls.rs:227-317): process the playlist's segments in
order, aborting when a download failure propagates. -/
def walkSegs (fetchOk : String → Bool) (inAds : Bool) (st : WalkState) :
    List MediaSegment → WalkState × List StreamAction × Bool
  | [] => (st, [], false)
  | seg :: rest =>
    if (stepSeg fetchOk inAds st seg).2.2 then
      ((stepSeg fetchOk inAds st seg).1, (stepSeg fetchOk inAds st seg).2.1, true)
    else
      ((walkSegs fetchOk inAds (stepSeg fetchOk inAds st seg).1 rest).1,
       (stepSeg fetchOk inAds st seg).2.1
         ++ (walkSegs fetchOk inAds (stepSeg fetchOk inAds st seg).1 rest).2.1,
       (walkSegs fetchOk inAds (stepSeg fetchOk inAds st seg).1 rest).2.2)

/-- Sequences of the media-segment (non-init) writes in a trace. -/
def writesOf (acts : List StreamAction) : List Nat :=
  acts.filterMap fun a => match a with
    | StreamAction.writeSeg n _ => some n
    | _ => none

/-- Does the trace contain any write (init or media) to the sink? -/
def hasWrite (acts : List StreamAction) : Bool :=
  acts.any fun a => match a with
    | StreamAction.writeInit _ => true
    | StreamAction.writeSeg _ _ => true
    | _ => false

/-- `live_edge` (hls.rs:198, 215): 2 in low-latency mode, 3 otherwise. -/
def liveEdge (lowLatency : Bool) : Nat :=
  if lowLatency then 2 else 3

/-- The cursor state touched by the ad-break bookkeeping at the top of
each loop iteration (hls.rs:184-208). -/
structure AdState where
  inAds : Bool
  lastSequence : Option Nat
  lastInit : Option String
deriving Repr, DecidableEq

/-- Ad-break entry/exit bookkeeping (hls.rs:184-208): entering sets
`in_ads`; leaving clears it and either jumps the cursor to
`max_sequence - live_edge` (content already delivered) or fully resets
both `last_sequence` and `last_init`. -/
def adTransition (lowLatency hadContent adsActive : Bool)
    (segSeqs : List Nat) (p : AdState) : AdState :=
  let p := if !p.inAds && adsActive then { p with inAds := true } else p
  if p.inAds && !adsActive then
    let p := { p with inAds := false }
    if hadContent then
      match segSeqs.max? with
      | some maxSeq =>
        { p with lastSequence := some (maxSeq - liveEdge lowLatency), lastInit := none }
      | none => { p with lastSequence := none, lastInit := none }
    else { p with lastSequence := none, lastInit := none }
  else p

/-- State consulted by the playlist-fetch error handling
(hls.rs:127, 131). -/
structure ErrState where
  consecutiveErrors : Nat
  hadContent : Bool
deriving Repr, DecidableEq

/-- Outcome of one playlist poll: the `send()` call failed, or a response
arrived with a status code and — when the status is 2xx — a parse
result.  (A failure of `response.text()` propagates an error at
hls.rs:169 and is outside the retry bookkeeping modelled here.) -/
inductive PollOutcome where
  | sendErr
  | gotStatus (code : Nat) (parseOk : Bool)
deriving Repr, DecidableEq

/-- What the loop does after handling a poll outcome. -/
inductive PollDecision where
  | breakClean
  | retry (sleepMs : Nat)
  | proceed
deriving Repr, DecidableEq

/-- `StatusCode::is_success`: the 2xx range. -/
def isSuccessStatus (code : Nat) : Bool :=
  200 ≤ code && code ≤ 299

/-- The playlist fetch/parse error handling of one loop iteration
(hls.rs:134-182): transport errors and non-2xx statuses bump
`consecutive_errors` with a 404/threshold escape once content was
delivered; a 2xx resets the counter before the parse, and a parse
failure bumps it again from zero (hls.rs:166, 170-182). -/
def pollStep (st : ErrState) (o : PollOutcome) : ErrState × PollDecision :=
  match o with
  | PollOutcome.sendErr =>
    let e := st.consecutiveErrors + 1
    if 3 ≤ e && st.hadContent then ({ st with consecutiveErrors := e }, .breakClean)
    else ({ st with consecutiveErrors := e }, .retry 750)
  | PollOutcome.gotStatus code parseOk =>
    if !isSuccessStatus code then
      let e := st.consecutiveErrors + 1
      if code == 404 && st.hadContent then
        ({ st with consecutiveErrors := e }, .breakClean)
      else if 3 ≤ e && st.hadContent then
        ({ st with consecutiveErrors := e }, .breakClean)
      else ({ st with consecutiveErrors := e }, .retry 750)
    else
      let st := { st with consecutiveErrors := 0 }
      if parseOk then (st, .proceed)
      else
        let e := st.consecutiveErrors + 1
        if 3 ≤ e && st.hadContent then
          ({ st with consecutiveErrors := e }, .breakClean)
        else ({ st with consecutiveErrors := e }, .retry 500)

/-! ## General lemmas about the string utilities -/

theorem startsWithL_append_self (p r : List Char) : startsWithL p (p ++ r) = true := by
  induction p with
  | nil => rfl
  | cons x xs ih => simp [startsWithL, ih]

theorem splitOnceL_append_cons (c : Char) (pre post : List Char) (h : c ∉ pre) :
    splitOnceL c (pre ++ c :: post) = some (pre, post) := by
  induction pre with
  | nil => simp [splitOnceL]
  | cons x xs ih =>
    have hx : x ≠ c := fun hc => h (hc ▸ List.mem_cons_self x xs)
    simp only [List.cons_append, splitOnceL, if_neg hx, List.append_eq,
      ih (fun hc => h (List.mem_cons_of_mem x hc))]

/-! ## C5: playlist fetch failure handling -/

/-- C5.  On playlist fetch failure: before any content has been written
the loop never ends on a playlist error (every error outcome retries);
after content has been written an HTTP 404 ends the loop cleanly and a
third (or later) consecutive error ends it cleanly; a successful (2xx)
fetch resets `consecutive_errors` to 0 (the reset precedes the parse
check, so a parse failure in the same iteration leaves the counter at
exactly 1). -/
theorem pollStep_retry_and_termination :
    (∀ (st : ErrState) (o : PollOutcome), st.hadContent = false →
      (pollStep st o).2 ≠ PollDecision.breakClean) ∧
    (∀ (st : ErrState) (p : Bool), st.hadContent = true →
      (pollStep st (PollOutcome.gotStatus 404 p)).2 = PollDecision.breakClean) ∧
    (∀ (st : ErrState), st.hadContent = true → 2 ≤ st.consecutiveErrors →
      (pollStep st PollOutcome.sendErr).2 = PollDecision.breakClean ∧
      (∀ (c : Nat) (p : Bool), isSuccessStatus c = false →
        (pollStep st (PollOutcome.gotStatus c p)).2 = PollDecision.breakClean)) ∧
    (∀ (st : ErrState) (c : Nat) (p : Bool), isSuccessStatus c = true →
      (pollStep st (PollOutcome.gotStatus c p)).1.consecutiveErrors
        = if p then 0 else 1) := by
  refine ⟨?_, ?_, ?_, ?_⟩
  · intro st o h
    cases o with
    | sendErr => simp [pollStep, h]
    | gotStatus c p =>
      simp only [pollStep, h, Bool.and_false]
      split_ifs <;> simp_all
  · intro st p h
    simp [pollStep, isSuccessStatus, h]
  · intro st h he
    constructor
    · simp only [pollStep, h, Bool.and_true]
      have : 3 ≤ st.consecutiveErrors + 1 := by omega
      simp [this]
    · intro c p hc
      simp only [pollStep, hc, h, Bool.not_false, if_true, Bool.and_true]
      have : 3 ≤ st.consecutiveErrors + 1 := by omega
      split_ifs <;> simp_all
  · intro st c p hc
    cases p <;> simp [pollStep, hc]

/-- Witness for C5 at concrete states. -/
theorem pollStep_retry_and_termination_witness :
    (pollStep ⟨5, false⟩ PollOutcome.sendErr).2 ≠ PollDecision.breakClean ∧
    (pollStep ⟨0, true⟩ (PollOutcome.gotStatus 404 true)).2 = PollDecision.breakClean ∧
    (pollStep ⟨2, true⟩ PollOutcome.sendErr).2 = PollDecision.breakClean ∧
    (pollStep ⟨2, true⟩ (PollOutcome.gotStatus 500 false)).2 = PollDecision.breakClean ∧
    (pollStep ⟨2, true⟩ (PollOutcome.gotStatus 200 true)).1.consecutiveErrors = 0 :=
  ⟨pollStep_retry_and_termination.1 ⟨5, false⟩ PollOutcome.sendErr rfl,
   pollStep_retry_and_termination.2.1 ⟨0, true⟩ true rfl,
   (pollStep_retry_and_termination.2.2.1 ⟨2, true⟩ rfl (by decide)).1,
   (pollStep_retry_and_termination.2.2.1 ⟨2, true⟩ rfl (by decide)).2 500 false (by decide),
   by simpa using pollStep_retry_and_termination.2.2.2 ⟨2, true⟩ 200 true (by decide)⟩

/-! ## C4: ad-break exit cursor handling -/

/-- C4.  When the loop leaves an ad break (`in_ads` was true and the new
playlist has no ad segment): with content already delivered the cursor
jumps to the playlist's maximum sequence minus the live edge (2 in
low-latency mode, 3 otherwise) and `last_init` is cleared; with no
content yet both `last_sequence` and `last_init` are reset to `none`. -/
theorem adTransition_exit :
    ∀ (lowLatency hadContent : Bool) (segSeqs : List Nat) (p : AdState),
      p.inAds = true →
      (adTransition lowLatency hadContent false segSeqs p).inAds = false ∧
      (hadContent = true → segSeqs ≠ [] →
        ∃ m, m ∈ segSeqs ∧ (∀ x ∈ segSeqs, x ≤ m) ∧
          (adTransition lowLatency hadContent false segSeqs p).lastSequence
            = some (m - liveEdge lowLatency) ∧
          (adTransition lowLatency hadContent false segSeqs p).lastInit = none) ∧
      (hadContent = false →
        (adTransition lowLatency hadContent false segSeqs p).lastSequence = none ∧
        (adTransition lowLatency hadContent false segSeqs p).lastInit = none) := by
  intro ll had seqs p hin
  refine ⟨?_, ?_, ?_⟩
  · cases had <;> cases hmax : seqs.max? <;> simp [adTransition, hin, hmax]
  · intro hhad hne
    obtain ⟨m, hm⟩ : ∃ m, seqs.max? = some m := by
      cases hmax : seqs.max? with
      | none => exact absurd (List.max?_eq_none_iff.mp hmax) hne
      | some m => exact ⟨m, rfl⟩
    refine ⟨m, List.max?_mem max_choice hm, ?_, ?_, ?_⟩
    · intro x hx
      exact (List.max?_le_iff (fun _ _ _ => Nat.max_le) hm).mp le_rfl x hx
    · simp [adTransition, hin, hhad, hm]
    · simp [adTransition, hin, hhad, hm]
  · intro hhad
    constructor <;> simp [adTransition, hin, hhad]

/-- Witness for C4 at a concrete state. -/
theorem adTransition_exit_witness :
    (adTransition false true false [10, 20, 15] ⟨true, some 20, some "i"⟩).inAds = false ∧
    (∃ m, m ∈ [10, 20, 15] ∧ (∀ x ∈ [10, 20, 15], x ≤ m) ∧
      (adTransition false true false [10, 20, 15] ⟨true, some 20, some "i"⟩).lastSequence
        = some (m - liveEdge false) ∧
      (adTransition false true false [10, 20, 15] ⟨true, some 20, some "i"⟩).lastInit = none) ∧
    ((adTransition false false false ([] : List Nat) ⟨true, some 20, some "i"⟩).lastSequence = none ∧
      (adTransition false false false ([] : List Nat) ⟨true, some 20, some "i"⟩).lastInit = none) :=
  ⟨(adTransition_exit false true [10, 20, 15] ⟨true, some 20, some "i"⟩ rfl).1,
   (adTransition_exit false true [10, 20, 15] ⟨true, some 20, some "i"⟩ rfl).2.1 rfl (by decide),
   (adTransition_exit false false ([] : List Nat) ⟨true, some 20, some "i"⟩ rfl).2.2 rfl⟩

/-! ## C10: malformed TARGETDURATION / MEDIA-SEQUENCE values -/

/-- C10.  A `#EXT-X-TARGETDURATION:` or `#EXT-X-MEDIA-SEQUENCE:` tag
whose value does not parse is silently ignored: the line leaves the whole
parser state unchanged (so `target_duration` and `media_sequence` keep
their previous values, the defaults being 4.0 and 0), and deleting such a
line from a body does not change the parse result. -/
theorem badTagValueIgnored :
    (∀ (ll : Bool) (base : String) (st : ParseState) (v : List Char),
      parseDecimal v = none →
      stepLineL ll base st ("#EXT-X-TARGETDURATION:".data ++ v) = st) ∧
    (∀ (ll : Bool) (base : String) (st : ParseState) (v : List Char),
      parseU64 v = none →
      stepLineL ll base st ("#EXT-X-MEDIA-SEQUENCE:".data ++ v) = st) ∧
    (∀ (ll : Bool) (base : String) (pre post : List String) (v : List Char) (l : String),
      l.data = "#EXT-X-TARGETDURATION:".data ++ v → trimL l.data = l.data →
      parseDecimal v = none →
      parseLines ll base (pre ++ l :: post) = parseLines ll base (pre ++ post)) ∧
    (∀ (ll : Bool) (base : String) (pre post : List String) (v : List Char) (l : String),
      l.data = "#EXT-X-MEDIA-SEQUENCE:".data ++ v → trimL l.data = l.data →
      parseU64 v = none →
      parseLines ll base (pre ++ l :: post) = parseLines ll base (pre ++ post)) := by
  have htd : ∀ (ll : Bool) (base : String) (st : ParseState) (v : List Char),
      parseDecimal v = none →
      stepLineL ll base st ("#EXT-X-TARGETDURATION:".data ++ v) = st := by
    intro ll base st v hv
    have h1 : startsWithL "#EXT-X-TARGETDURATION:".data
        ("#EXT-X-TARGETDURATION:".data ++ v) = true := startsWithL_append_self _ _
    have he : ("#EXT-X-TARGETDURATION:".data : List Char)
        = "#EXT-X-TARGETDURATION".data ++ [':'] := by decide
    have h2 : splitOnceL ':' ("#EXT-X-TARGETDURATION:".data ++ v)
        = some ("#EXT-X-TARGETDURATION".data, v) := by
      rw [he, List.append_assoc, List.singleton_append]
      exact splitOnceL_append_cons ':' _ v (by decide)
    unfold stepLineL
    rw [h1]
    simp only [if_true, h2, hv]
  have hms : ∀ (ll : Bool) (base : String) (st : ParseState) (v : List Char),
      parseU64 v = none →
      stepLineL ll base st ("#EXT-X-MEDIA-SEQUENCE:".data ++ v) = st := by
    intro ll base st v hv
    have h0 : startsWithL "#EXT-X-TARGETDURATION:".data
        ("#EXT-X-MEDIA-SEQUENCE:".data ++ v) = false := by
      simp [startsWithL, String.data]
    have h1 : startsWithL "#EXT-X-MEDIA-SEQUENCE:".data
        ("#EXT-X-MEDIA-SEQUENCE:".data ++ v) = true := startsWithL_append_self _ _
    have he : ("#EXT-X-MEDIA-SEQUENCE:".data : List Char)
        = "#EXT-X-MEDIA-SEQUENCE".data ++ [':'] := by decide
    have h2 : splitOnceL ':' ("#EXT-X-MEDIA-SEQUENCE:".data ++ v)
        = some ("#EXT-X-MEDIA-SEQUENCE".data, v) := by
      rw [he, List.append_assoc, List.singleton_append]
      exact splitOnceL_append_cons ':' _ v (by decide)
    unfold stepLineL
    rw [h0, h1]
    simp only [Bool.false_eq_true, if_false, if_true, h2, hv]
  refine ⟨htd, hms, ?_, ?_⟩
  · intro ll base pre post v l hl htrim hv
    unfold parseLines
    rw [List.foldl_append, List.foldl_append, List.foldl_cons, htrim, hl,
      htd ll base _ v hv]
  · intro ll base pre post v l hl htrim hv
    unfold parseLines
    rw [List.foldl_append, List.foldl_append, List.foldl_cons, htrim, hl,
      hms ll base _ v hv]

/-- Witness for C10: a malformed `TARGETDURATION` value and a malformed
`MEDIA-SEQUENCE` value are ignored, concretely. -/
theorem badTagValueIgnored_witness :
    stepLineL false "b" initParseState ("#EXT-X-TARGETDURATION:".data ++ "abc".data)
      = initParseState ∧
    stepLineL false "b" initParseState ("#EXT-X-MEDIA-SEQUENCE:".data ++ "12x".data)
      = initParseState ∧
    parseLines false "b" (["#EXTINF:4.0,"] ++ "#EXT-X-TARGETDURATION:abc" :: ["a.ts"])
      = parseLines false "b" (["#EXTINF:4.0,"] ++ ["a.ts"]) :=
  ⟨badTagValueIgnored.1 false "b" initParseState "abc".data (by decide),
   badTagValueIgnored.2.1 false "b" initParseState "12x".data (by decide),
   badTagValueIgnored.2.2.1 false "b" ["#EXTINF:4.0,"] ["a.ts"] "abc".data
     "#EXT-X-TARGETDURATION:abc" (by decide) (by decide) (by decide)⟩

/-! ## C2: ad segments are suppressed but advance the cursor -/

/-- C2.  Processing a segment whose `ad` flag is true performs no I/O at
all — no GET of its URI, no init download, no bytes written — and does
not propagate an error; afterwards the cursor `last_sequence` is at least
the segment's sequence, and it is exactly the segment's sequence whenever
the segment was actually considered (the cursor, after any applicable
discontinuity reset, was below it or unset). -/
theorem adSegmentSuppressed :
    ∀ (fetchOk : String → Bool) (inAds : Bool) (st : WalkState) (seg : MediaSegment),
      seg.ad = true →
      (stepSeg fetchOk inAds st seg).2.1 = [] ∧
      (stepSeg fetchOk inAds st seg).2.2 = false ∧
      (∃ v, (stepSeg fetchOk inAds st seg).1.lastSequence = some v ∧ seg.sequence ≤ v) ∧
      (∀ l, (if seg.discontinuity && !inAds then none else st.lastSequence) = some l →
        l < seg.sequence →
        (stepSeg fetchOk inAds st seg).1.lastSequence = some seg.sequence) ∧
      ((if seg.discontinuity && !inAds then none else st.lastSequence) = none →
        (stepSeg fetchOk inAds st seg).1.lastSequence = some seg.sequence) := by
  intro f inAds st seg hAd
  by_cases hr : (seg.discontinuity && !inAds) = true
  · simp [stepSeg, stepSegCore, resetState, skipCheck, hr, hAd]
  · rw [Bool.not_eq_true] at hr
    cases hls : st.lastSequence with
    | none => simp [stepSeg, stepSegCore, resetState, skipCheck, hr, hls, hAd]
    | some l =>
      by_cases hle : seg.sequence ≤ l
      · refine ⟨?_, ?_, ⟨l, ?_, hle⟩, ?_, ?_⟩ <;>
          simp [stepSeg, stepSegCore, resetState, skipCheck, hr, hls, hle, hAd]
      · simp [stepSeg, stepSegCore, resetState, skipCheck, hr, hls, hle, hAd]

/-- Witness for C2 at a concrete segment and state. -/
theorem adSegmentSuppressed_witness :
    (stepSeg (fun _ => true) false ⟨some 5, none, true, false, false⟩
      ⟨"u", none, 7, 0, false, true, false⟩).2.1 = [] ∧
    (stepSeg (fun _ => true) false ⟨some 5, none, true, false, false⟩
      ⟨"u", none, 7, 0, false, true, false⟩).1.lastSequence = some 7 :=
  ⟨(adSegmentSuppressed (fun _ => true) false ⟨some 5, none, true, false, false⟩
      ⟨"u", none, 7, 0, false, true, false⟩ rfl).1,
   (adSegmentSuppressed (fun _ => true) false ⟨some 5, none, true, false, false⟩
      ⟨"u", none, 7, 0, false, true, false⟩ rfl).2.2.2.1 5 rfl (by decide)⟩

/-! ## C6: evolution of `had_content` -/

theorem hasWrite_append (a b : List StreamAction) :
    hasWrite (a ++ b) = (hasWrite a || hasWrite b) := by
  simp [hasWrite, List.any_append]

/-- The init block sets `had_content` exactly when it writes bytes,
never touches `last_sequence`, and performs no media-segment write. -/
theorem initBlock_spec (f : String → Bool) (st : WalkState) (seg : MediaSegment) :
    (initBlock f st seg).1.hadContent
        = (st.hadContent || hasWrite (initBlock f st seg).2.1) ∧
      (initBlock f st seg).1.lastSequence = st.lastSequence ∧
      writesOf (initBlock f st seg).2.1 = [] := by
  cases hI : seg.init with
  | none => simp [initBlock, hI, hasWrite, writesOf]
  | some iu =>
    cases hLI : st.lastInit with
    | none =>
      by_cases hf : f iu = true <;> simp [initBlock, hI, hLI, hf, hasWrite, writesOf]
    | some u =>
      by_cases hu : u = iu
      · simp [initBlock, hI, hLI, hu, hasWrite, writesOf]
      · by_cases hf : f iu = true <;> simp [initBlock, hI, hLI, hu, hf, hasWrite, writesOf]

/-- Post-reset walk body: `had_content` after the step is the old value
or-ed with "the step wrote bytes". -/
theorem stepSegCore_hadContent (f : String → Bool) (inAds : Bool) (st : WalkState)
    (seg : MediaSegment) :
    (stepSegCore f inAds st seg).1.hadContent
      = (st.hadContent || hasWrite (stepSegCore f inAds st seg).2.1) := by
  unfold stepSegCore
  split
  · simp [hasWrite]
  · split
    · simp [hasWrite]
    · split <;> rename_i hfatal
      · simpa using (initBlock_spec f st seg).1
      · unfold fetchBlock
        split_ifs <;>
          simp [hasWrite_append, (initBlock_spec f st seg).1, hasWrite, Bool.or_assoc]

/-- The discontinuity reset never touches `had_content`. -/
theorem resetState_hadContent (inAds : Bool) (st : WalkState) (seg : MediaSegment) :
    (resetState inAds st seg).hadContent = st.hadContent := by
  unfold resetState
  split <;> rfl

theorem stepSeg_hadContent (f : String → Bool) (inAds : Bool) (st : WalkState)
    (seg : MediaSegment) :
    (stepSeg f inAds st seg).1.hadContent
      = (st.hadContent || hasWrite (stepSeg f inAds st seg).2.1) := by
  have h1 := stepSegCore_hadContent f inAds (resetState inAds st seg) seg
  rw [resetState_hadContent] at h1
  exact h1

/-- C6 (amended).  Over any walk, `had_content` afterwards equals the
prior value or-ed with "some byte (init or media segment) was written to
the sink": it becomes true exactly when the first byte of any kind is
written (the source sets it at hls.rs:276 already on an init write), and
once true no path of the walk clears it. -/
theorem hadContentTracksWrites :
    (∀ (f : String → Bool) (inAds : Bool) (segs : List MediaSegment) (st : WalkState),
      (walkSegs f inAds st segs).1.hadContent
        = (st.hadContent || hasWrite (walkSegs f inAds st segs).2.1)) ∧
    (∀ (f : String → Bool) (inAds : Bool) (segs : List MediaSegment) (st : WalkState),
      st.hadContent = true → (walkSegs f inAds st segs).1.hadContent = true) := by
  have key : ∀ (f : String → Bool) (inAds : Bool) (segs : List MediaSegment) (st : WalkState),
      (walkSegs f inAds st segs).1.hadContent
        = (st.hadContent || hasWrite (walkSegs f inAds st segs).2.1) := by
    intro f inAds segs
    induction segs with
    | nil => intro st; simp [walkSegs, hasWrite]
    | cons seg rest ih =>
      intro st
      unfold walkSegs
      split <;> rename_i hfatal
      · exact stepSeg_hadContent f inAds st seg
      · show (walkSegs f inAds (stepSeg f inAds st seg).1 rest).1.hadContent = _
        rw [ih, stepSeg_hadContent, hasWrite_append, Bool.or_assoc]
  refine ⟨key, fun f inAds segs st h => ?_⟩
  rw [key, h, Bool.true_or]

/-- Witness for C6's monotonicity conjunct at a concrete state. -/
theorem hadContentTracksWrites_witness :
    (walkSegs (fun _ => true) false ⟨none, none, true, false, false⟩
      [⟨"u", none, 3, 1, false, false, false⟩]).1.hadContent = true :=
  hadContentTracksWrites.2 (fun _ => true) false
    [⟨"u", none, 3, 1, false, false, false⟩] ⟨none, none, true, false, false⟩ rfl

/-- Counterexample to C6 as stated: after a walk in which the init
segment downloads but the media segment's GET fails, `had_content` is
true although the trace contains no media-segment (non-init) write —
only an init write.  So `had_content` does not become true "exactly when
a non-init byte has been written". -/
theorem hadContent_claim_counterexample :
    (walkSegs (fun u => u == "http://x/init") false initWalkState
      [⟨"http://x/a.ts", some "http://x/init", 0, 1, false, false, false⟩]).1.hadContent
        = true ∧
    (walkSegs (fun u => u == "http://x/init") false initWalkState
      [⟨"http://x/a.ts", some "http://x/init", 0, 1, false, false, false⟩]).2.1
        = [StreamAction.fetchInit "http://x/init", StreamAction.writeInit "http://x/init",
           StreamAction.fetchSeg 0 "http://x/a.ts"] ∧
    writesOf (walkSegs (fun u => u == "http://x/init") false initWalkState
      [⟨"http://x/a.ts", some "http://x/init", 0, 1, false, false, false⟩]).2.1 = [] := by
  refine ⟨by decide, by decide, by decide⟩

/-! ## C1: the sequence cursor prevents re-downloads and duplicate writes -/

theorem writesOf_append (a b : List StreamAction) :
    writesOf (a ++ b) = writesOf a ++ writesOf b := by
  simp [writesOf, List.filterMap_append]

/-- When no non-ad discontinuity applies, the reset leaves the state
untouched (hls.rs:228-231). -/
theorem resetState_of_not (inAds : Bool) (st : WalkState) (seg : MediaSegment)
    (hr : (seg.discontinuity && !inAds) = false) : resetState inAds st seg = st := by
  simp [resetState, hr]

/-- Outcome analysis of the post-reset walk body: either it writes no
media segment and leaves the cursor unchanged, or the segment's sequence
strictly exceeds the incoming cursor, the cursor advances to it, and at
most that one sequence is written. -/
theorem stepSegCore_cases (f : String → Bool) (inAds : Bool) (st : WalkState)
    (seg : MediaSegment) :
    (writesOf (stepSegCore f inAds st seg).2.1 = [] ∧
      (stepSegCore f inAds st seg).1.lastSequence = st.lastSequence) ∨
    ((∀ l, st.lastSequence = some l → l < seg.sequence) ∧
      (stepSegCore f inAds st seg).1.lastSequence = some seg.sequence ∧
      (writesOf (stepSegCore f inAds st seg).2.1 = [] ∨
        writesOf (stepSegCore f inAds st seg).2.1 = [seg.sequence])) := by
  have hbound : skipCheck st seg = false →
      ∀ l, st.lastSequence = some l → l < seg.sequence := by
    intro hsk l hl
    simp [skipCheck, hl] at hsk
    omega
  unfold stepSegCore
  split <;> rename_i hskip
  · exact Or.inl ⟨rfl, rfl⟩
  · rw [Bool.not_eq_true] at hskip
    split <;> rename_i hAd
    · exact Or.inr ⟨hbound hskip, rfl, Or.inl rfl⟩
    · split <;> rename_i hfatal
      · exact Or.inl ⟨(initBlock_spec f st seg).2.2, (initBlock_spec f st seg).2.1⟩
      · unfold fetchBlock
        split_ifs with hfu
        · refine Or.inr ⟨hbound hskip, rfl, Or.inr ?_⟩
          rw [writesOf_append, (initBlock_spec f st seg).2.2, List.nil_append]
          simp [writesOf]
        · refine Or.inl ⟨?_, (initBlock_spec f st seg).2.1⟩
          rw [writesOf_append, (initBlock_spec f st seg).2.2, List.nil_append]
          simp [writesOf]

/-- Over a walk without non-ad discontinuities, the written sequences are
pairwise strictly increasing and all exceed the incoming cursor. -/
theorem walkSegs_writes_spec (f : String → Bool) (inAds : Bool) :
    ∀ (segs : List MediaSegment) (st : WalkState),
      (∀ s ∈ segs, (s.discontinuity && !inAds) = false) →
      List.Pairwise (· < ·) (writesOf (walkSegs f inAds st segs).2.1) ∧
      (∀ l, st.lastSequence = some l →
        ∀ n ∈ writesOf (walkSegs f inAds st segs).2.1, l < n) := by
  intro segs
  induction segs with
  | nil => intro st h; simp [walkSegs, writesOf]
  | cons seg rest ih =>
    intro st h
    have hseg : (seg.discontinuity && !inAds) = false := h seg (List.mem_cons_self _ _)
    have hrest : ∀ s ∈ rest, (s.discontinuity && !inAds) = false :=
      fun s hs => h s (List.mem_cons_of_mem _ hs)
    have hstep : stepSeg f inAds st seg = stepSegCore f inAds st seg := by
      rw [stepSeg, resetState_of_not inAds st seg hseg]
    have hcases := stepSegCore_cases f inAds st seg
    rw [← hstep] at hcases
    rcases hcases with ⟨hw, hl⟩ | ⟨hb, hl, hw⟩
    · unfold walkSegs
      split <;> rename_i hfatal
      · rw [hw]
        exact ⟨List.Pairwise.nil, by simp⟩
      · show List.Pairwise _ (writesOf ((stepSeg f inAds st seg).2.1 ++ _)) ∧ _
        rw [writesOf_append, hw, List.nil_append]
        obtain ⟨ihp, ihb⟩ := ih (stepSeg f inAds st seg).1 hrest
        exact ⟨ihp, fun l hld n hn => ihb l (hl.trans hld) n hn⟩
    · unfold walkSegs
      split <;> rename_i hfatal
      · rcases hw with hw | hw <;> rw [hw]
        · exact ⟨List.Pairwise.nil, by simp⟩
        · refine ⟨List.pairwise_singleton _ _, fun l hld n hn => ?_⟩
          rw [List.mem_singleton] at hn
          exact hn ▸ hb l hld
      · show List.Pairwise _ (writesOf ((stepSeg f inAds st seg).2.1 ++ _)) ∧ _
        rw [writesOf_append]
        obtain ⟨ihp, ihb⟩ := ih (stepSeg f inAds st seg).1 hrest
        rcases hw with hw | hw <;> rw [hw]
        · rw [List.nil_append]
          refine ⟨ihp, fun l hld n hn => ?_⟩
          exact lt_trans (hb l hld) (ihb seg.sequence hl n hn)
        · rw [List.singleton_append]
          refine ⟨List.pairwise_cons.mpr ⟨fun y hy => ihb seg.sequence hl y hy, ihp⟩,
            fun l hld n hn => ?_⟩
          rcases List.mem_cons.mp hn with hn | hn
          · exact hn ▸ hb l hld
          · exact lt_trans (hb l hld) (ihb seg.sequence hl n hn)

/-- C1.  A segment whose sequence is at or below the cursor at the moment
it is processed — and to which no non-ad discontinuity reset applies —
is neither downloaded nor written: the step performs no I/O at all and
leaves the state unchanged.  Moreover, over a walk in which no segment
triggers a non-ad discontinuity reset, the media-segment sequences
written to the sink are pairwise strictly increasing, so no sequence
value is ever written twice between resets. -/
theorem noRewriteBelowCursor :
    (∀ (f : String → Bool) (inAds : Bool) (st : WalkState) (seg : MediaSegment) (l : Nat),
      (seg.discontinuity && !inAds) = false →
      st.lastSequence = some l → seg.sequence ≤ l →
      stepSeg f inAds st seg = (st, [], false)) ∧
    (∀ (f : String → Bool) (inAds : Bool) (st : WalkState) (segs : List MediaSegment),
      (∀ s ∈ segs, (s.discontinuity && !inAds) = false) →
      List.Pairwise (· < ·) (writesOf (walkSegs f inAds st segs).2.1)) := by
  constructor
  · intro f inAds st seg l hr hls hle
    rw [stepSeg, resetState_of_not inAds st seg hr]
    unfold stepSegCore
    have hsk : skipCheck st seg = true := by simp [skipCheck, hls, hle]
    simp [hsk]
  · intro f inAds st segs h
    exact (walkSegs_writes_spec f inAds segs st h).1

/-- Witness for C1 at a concrete state and playlist. -/
theorem noRewriteBelowCursor_witness :
    stepSeg (fun _ => true) false ⟨some 5, none, false, false, false⟩
      ⟨"u", none, 3, 1, false, false, false⟩
      = (⟨some 5, none, false, false, false⟩, [], false) ∧
    List.Pairwise (· < ·) (writesOf (walkSegs (fun _ => true) false initWalkState
      [⟨"a", none, 1, 1, false, false, false⟩,
       ⟨"b", none, 2, 1, false, false, false⟩]).2.1) :=
  ⟨noRewriteBelowCursor.1 (fun _ => true) false ⟨some 5, none, false, false, false⟩
      ⟨"u", none, 3, 1, false, false, false⟩ 5 rfl rfl (by decide),
   noRewriteBelowCursor.2 (fun _ => true) false initWalkState
      [⟨"a", none, 1, 1, false, false, false⟩, ⟨"b", none, 2, 1, false, false, false⟩]
      (by simp)⟩

/-! ## C9: BANDWIDTH / AVERAGE-BANDWIDTH resolution -/

/-- A nonzero bandwidth survives any tail that contains no further
`BANDWIDTH` key: the `AVERAGE-BANDWIDTH` arm is guarded by
`bandwidth == 0` (hls.rs:72). -/
theorem bandwidthStep_stable :
    ∀ (post : List (String × String)) (b : Nat), b ≠ 0 →
      (∀ kv ∈ post, kv.1 ≠ "BANDWIDTH") →
      post.foldl bandwidthStep b = b := by
  intro post
  induction post with
  | nil => intro b _ _; rfl
  | cons kv rest ih =>
    intro b hb h
    have hk : kv.1 ≠ "BANDWIDTH" := h kv (List.mem_cons_self _ _)
    have hstep : bandwidthStep b kv = b := by
      unfold bandwidthStep
      rw [if_neg hk]
      have : (kv.1 = "AVERAGE-BANDWIDTH" && b == 0) = false := by
        have : (b == 0) = false := by simp [hb]
        simp [this]
      rw [this]
      simp
    rw [List.foldl_cons, hstep]
    exact ih b hb fun kv2 h2 => h kv2 (List.mem_cons_of_mem _ h2)

/-- Keys other than `BANDWIDTH` and `AVERAGE-BANDWIDTH` never touch the
bandwidth variable. -/
theorem bandwidthStep_zero :
    ∀ (pre : List (String × String)),
      (∀ kv ∈ pre, kv.1 ≠ "BANDWIDTH" ∧ kv.1 ≠ "AVERAGE-BANDWIDTH") →
      pre.foldl bandwidthStep 0 = 0 := by
  intro pre
  induction pre with
  | nil => intro _; rfl
  | cons kv rest ih =>
    intro h
    obtain ⟨hk1, hk2⟩ := h kv (List.mem_cons_self _ _)
    have hstep : bandwidthStep 0 kv = 0 := by
      unfold bandwidthStep
      rw [if_neg hk1]
      have : (kv.1 = "AVERAGE-BANDWIDTH" && (0 : Nat) == 0) = false := by
        simp [hk2]
      rw [this]
      simp
    rw [List.foldl_cons, hstep]
    exact ih fun kv2 h2 => h kv2 (List.mem_cons_of_mem _ h2)

/-- C9 (amended).  When the attribute list carries a single `BANDWIDTH`
whose value parses to a nonzero number, the resulting bandwidth is that
value wherever the attribute appears — in particular any
`AVERAGE-BANDWIDTH`, before or after it, is ignored.  When `BANDWIDTH`
is absent, a nonzero `AVERAGE-BANDWIDTH` is used.  (With a `BANDWIDTH`
that is present but parses to zero, the outcome is order-dependent: a
later zero `BANDWIDTH` overwrites an earlier `AVERAGE-BANDWIDTH` — see
the counterexample.) -/
theorem bandwidthResolution :
    (∀ (pre post : List (String × String)) (v : String) (b : Nat),
      parseU64 v.data = some b → b ≠ 0 →
      (∀ kv ∈ post, kv.1 ≠ "BANDWIDTH") →
      bandwidthOfAttrs (pre ++ ("BANDWIDTH", v) :: post) = b) ∧
    (∀ (pre post : List (String × String)) (v : String) (b : Nat),
      parseU64 v.data = some b → b ≠ 0 →
      (∀ kv ∈ pre, kv.1 ≠ "BANDWIDTH" ∧ kv.1 ≠ "AVERAGE-BANDWIDTH") →
      (∀ kv ∈ post, kv.1 ≠ "BANDWIDTH") →
      bandwidthOfAttrs (pre ++ ("AVERAGE-BANDWIDTH", v) :: post) = b) := by
  constructor
  · intro pre post v b hv hb hpost
    unfold bandwidthOfAttrs
    rw [List.foldl_append, List.foldl_cons]
    have : bandwidthStep (pre.foldl bandwidthStep 0) ("BANDWIDTH", v) = b := by
      unfold bandwidthStep
      simp [hv]
    rw [this]
    exact bandwidthStep_stable post b hb hpost
  · intro pre post v b hv hb hpre hpost
    unfold bandwidthOfAttrs
    rw [List.foldl_append, bandwidthStep_zero pre hpre, List.foldl_cons]
    have : bandwidthStep 0 ("AVERAGE-BANDWIDTH", v) = b := by
      unfold bandwidthStep
      simp [hv]
    rw [this]
    exact bandwidthStep_stable post b hb hpost

/-- Witness for C9's amended statement at concrete attribute lists. -/
theorem bandwidthResolution_witness :
    bandwidthOfAttrs [("AVERAGE-BANDWIDTH", "500"), ("BANDWIDTH", "1000"),
      ("RESOLUTION", "1920x1080")] = 1000 ∧
    bandwidthOfAttrs [("NAME", "720p"), ("AVERAGE-BANDWIDTH", "500")] = 500 :=
  ⟨bandwidthResolution.1 [("AVERAGE-BANDWIDTH", "500")] [("RESOLUTION", "1920x1080")]
      "1000" 1000 (by decide) (by decide) (by simp),
   bandwidthResolution.2 [("NAME", "720p")] [] "500" 500 (by decide) (by decide)
      (by simp) (by simp)⟩

/-- Counterexample to C9 as stated: with `BANDWIDTH` present but zero,
the result depends on attribute order — `AVERAGE-BANDWIDTH` before a
zero `BANDWIDTH` is clobbered back to 0, while the reverse order keeps
500 — so the fallback is not order-independent. -/
theorem bandwidthOrder_counterexample :
    bandwidthOfAttrs [("AVERAGE-BANDWIDTH", "500"), ("BANDWIDTH", "0")] = 0 ∧
    bandwidthOfAttrs [("BANDWIDTH", "0"), ("AVERAGE-BANDWIDTH", "500")] = 500 := by
  refine ⟨by decide, by decide⟩

/-! ## C7: quality selection -/

/-- `getLast?` ignores a freshly consed head when the tail is non-empty. -/
theorem getLast?_cons_of_ne_nil {a : StreamVariant} {l : List StreamVariant}
    (h : l ≠ []) : (a :: l).getLast? = l.getLast? := by
  cases l with
  | nil => exact absurd rfl h
  | cons b l2 => exact List.getLast?_cons_cons

/-- The fold modelling `Iterator::max_by` returns an element of the
list that bounds every bandwidth from above and is the LAST element
attaining its bandwidth (Rust's `max_by` keeps the later of equal
maxima). -/
theorem maxByBandwidth_spec :
    ∀ (xs : List StreamVariant) (x : StreamVariant),
      maxByBandwidth x xs ∈ x :: xs ∧
      (∀ v ∈ x :: xs, v.bandwidth ≤ (maxByBandwidth x xs).bandwidth) ∧
      ((x :: xs).filter
          (fun v => v.bandwidth = (maxByBandwidth x xs).bandwidth)).getLast?
        = some (maxByBandwidth x xs) := by
  intro xs
  induction xs with
  | nil =>
    intro x
    refine ⟨List.mem_cons_self _ _, ?_, ?_⟩
    · intro v hv
      rw [List.mem_singleton] at hv
      exact hv ▸ le_rfl
    · simp [maxByBandwidth, List.filter]
  | cons y ys ih =>
    intro x
    have hfold : maxByBandwidth x (y :: ys)
        = maxByBandwidth (if x.bandwidth > y.bandwidth then x else y) ys := by
      simp [maxByBandwidth, List.foldl_cons]
    obtain ⟨hmem, hub, hlast⟩ := ih (if x.bandwidth > y.bandwidth then x else y)
    rw [hfold]
    set r := maxByBandwidth (if x.bandwidth > y.bandwidth then x else y) ys with hr
    by_cases hxy : x.bandwidth > y.bandwidth
    · rw [if_pos hxy] at hmem hub hlast
      have hxr : x.bandwidth ≤ r.bandwidth := hub x (List.mem_cons_self _ _)
      have hyr : y.bandwidth < r.bandwidth := lt_of_lt_of_le hxy hxr
      refine ⟨?_, ?_, ?_⟩
      · rcases List.mem_cons.mp hmem with h | h
        · exact h ▸ List.mem_cons_self _ _
        · exact List.mem_cons_of_mem _ (List.mem_cons_of_mem _ h)
      · intro v hv
        rcases List.mem_cons.mp hv with h | h
        · exact hub v (h ▸ List.mem_cons_self _ _)
        · rcases List.mem_cons.mp h with h2 | h2
          · exact h2 ▸ le_of_lt hyr
          · exact hub v (List.mem_cons_of_mem _ h2)
      · have hpy : (decide (y.bandwidth = r.bandwidth)) = false := by
          simp [Nat.ne_of_lt hyr]
        simp only [List.filter_cons] at hlast ⊢
        simp only [hpy, Bool.false_eq_true, if_false]
        exact hlast
    · rw [if_neg hxy] at hmem hub hlast
      have hxy2 : x.bandwidth ≤ y.bandwidth := le_of_not_lt hxy
      have hyr : y.bandwidth ≤ r.bandwidth := hub y (List.mem_cons_self _ _)
      have hxr : x.bandwidth ≤ r.bandwidth := le_trans hxy2 hyr
      refine ⟨List.mem_cons_of_mem _ hmem, ?_, ?_⟩
      · intro v hv
        rcases List.mem_cons.mp hv with h | h
        · exact h ▸ hxr
        · exact hub v h
      · rw [List.filter_cons]
        by_cases hpx : x.bandwidth = r.bandwidth
        · rw [if_pos (by simpa using hpx)]
          have hne : (y :: ys).filter (fun v => v.bandwidth = r.bandwidth) ≠ [] := by
            intro hnil
            rw [hnil] at hlast
            exact Option.noConfusion hlast
          rw [getLast?_cons_of_ne_nil hne]
          exact hlast
        · rw [if_neg (by simpa using hpx)]
          exact hlast

/-- The fold modelling `Iterator::min_by` returns an element of the
list that bounds every bandwidth from below. -/
theorem minByBandwidth_spec :
    ∀ (xs : List StreamVariant) (x : StreamVariant),
      minByBandwidth x xs ∈ x :: xs ∧
      (∀ v ∈ x :: xs, (minByBandwidth x xs).bandwidth ≤ v.bandwidth) := by
  intro xs
  induction xs with
  | nil =>
    intro x
    refine ⟨List.mem_cons_self _ _, fun v hv => ?_⟩
    rw [List.mem_singleton] at hv
    exact hv ▸ le_rfl
  | cons y ys ih =>
    intro x
    have hfold : minByBandwidth x (y :: ys)
        = minByBandwidth (if y.bandwidth < x.bandwidth then y else x) ys := by
      simp [minByBandwidth, List.foldl_cons]
    obtain ⟨hmem, hlb⟩ := ih (if y.bandwidth < x.bandwidth then y else x)
    rw [hfold]
    set r := minByBandwidth (if y.bandwidth < x.bandwidth then y else x) ys with hr
    by_cases hyx : y.bandwidth < x.bandwidth
    · rw [if_pos hyx] at hmem hlb
      have hry : r.bandwidth ≤ y.bandwidth := hlb y (List.mem_cons_self _ _)
      refine ⟨?_, fun v hv => ?_⟩
      · rcases List.mem_cons.mp hmem with h | h
        · exact h ▸ List.mem_cons_of_mem _ (List.mem_cons_self _ _)
        · exact List.mem_cons_of_mem _ (List.mem_cons_of_mem _ h)
      · rcases List.mem_cons.mp hv with h | h
        · exact h ▸ le_of_lt (lt_of_le_of_lt hry hyx)
        · rcases List.mem_cons.mp h with h2 | h2
          · exact h2 ▸ hry
          · exact hlb v (List.mem_cons_of_mem _ h2)
    · rw [if_neg hyx] at hmem hlb
      have hxy : x.bandwidth ≤ y.bandwidth := le_of_not_lt hyx
      have hrx : r.bandwidth ≤ x.bandwidth := hlb x (List.mem_cons_self _ _)
      refine ⟨?_, fun v hv => ?_⟩
      · rcases List.mem_cons.mp hmem with h | h
        · exact h ▸ List.mem_cons_self _ _
        · exact List.mem_cons_of_mem _ (List.mem_cons_of_mem _ h)
      · rcases List.mem_cons.mp hv with h | h
        · exact h ▸ hrx
        · rcases List.mem_cons.mp h with h2 | h2
          · exact h2 ▸ le_trans hrx hxy
          · exact hlb v (List.mem_cons_of_mem _ h2)

/-- A successful `find?` splits the list at the first match. -/
theorem find?_split {α : Type} (p : α → Bool) :
    ∀ (l : List α) (r : α), l.find? p = some r →
      ∃ pre post, l = pre ++ r :: post ∧ ∀ v ∈ pre, p v = false := by
  intro l
  induction l with
  | nil => intro r h; exact Option.noConfusion h
  | cons x xs ih =>
    intro r h
    rw [List.find?_cons] at h
    cases hpx : p x with
    | true =>
      rw [hpx] at h
      replace h : some x = some r := h
      obtain rfl : x = r := Option.some.inj h
      exact ⟨[], xs, rfl, by simp⟩
    | false =>
      rw [hpx] at h
      replace h : List.find? p xs = some r := h
      obtain ⟨pre, post, heq, hpre⟩ := ih r h
      refine ⟨x :: pre, post, by rw [heq, List.cons_append], fun v hv => ?_⟩
      rcases List.mem_cons.mp hv with h2 | h2
      · exact h2 ▸ hpx
      · exact hpre v h2

/-- C7 (amended).  For a non-empty variant list, "best" returns a
variant of maximum bandwidth, ties broken in favour of the LAST variant
in input order (so with all bandwidths zero the last variant is
returned, not the first); "worst" returns a variant of minimum
bandwidth; any other quality string returns the first variant whose
alias set contains the lowercased quality exactly, and selection fails
(returns `none`) exactly when no alias matches. -/
theorem selectVariant_amended :
    (∀ (x : StreamVariant) (xs : List StreamVariant),
      ∃ r, selectVariant (x :: xs) "best" = some r ∧ r ∈ x :: xs ∧
        (∀ v ∈ x :: xs, v.bandwidth ≤ r.bandwidth) ∧
        ((x :: xs).filter (fun v => v.bandwidth = r.bandwidth)).getLast? = some r) ∧
    (∀ (x : StreamVariant) (xs : List StreamVariant),
      ∃ r, selectVariant (x :: xs) "worst" = some r ∧ r ∈ x :: xs ∧
        (∀ v ∈ x :: xs, r.bandwidth ≤ v.bandwidth)) ∧
    (∀ (variants : List StreamVariant) (quality : String),
      String.mk (lowerL quality.data) ≠ "best" →
      String.mk (lowerL quality.data) ≠ "worst" →
      (selectVariant variants quality = none ↔
        ∀ v ∈ variants, String.mk (lowerL quality.data) ∉ v.aliases) ∧
      (∀ r, selectVariant variants quality = some r →
        String.mk (lowerL quality.data) ∈ r.aliases ∧
        ∃ pre post, variants = pre ++ r :: post ∧
          ∀ v ∈ pre, String.mk (lowerL quality.data) ∉ v.aliases)) := by
  refine ⟨?_, ?_, ?_⟩
  · intro x xs
    exact ⟨maxByBandwidth x xs, rfl, (maxByBandwidth_spec xs x).1,
      (maxByBandwidth_spec xs x).2.1, (maxByBandwidth_spec xs x).2.2⟩
  · intro x xs
    exact ⟨minByBandwidth x xs, rfl, (minByBandwidth_spec xs x).1,
      (minByBandwidth_spec xs x).2⟩
  · intro variants quality hb hw
    have hsel : selectVariant variants quality
        = variants.find? (fun v => v.aliases.any fun a => a = String.mk (lowerL quality.data)) := by
      simp [selectVariant, hb, hw]
    constructor
    · rw [hsel, List.find?_eq_none]
      constructor
      · intro h v hv hmem
        have := h v hv
        simp only [Bool.not_eq_true, List.any_eq_false, decide_eq_false_iff_not] at this
        exact this _ hmem rfl
      · intro h v hv
        simp only [Bool.not_eq_true, List.any_eq_false]
        intro a ha
        simp only [decide_eq_false_iff_not]
        intro heq
        exact h v hv (heq ▸ ha)
    · intro r hr
      rw [hsel] at hr
      have hp := List.find?_some hr
      simp only [List.any_eq_true, decide_eq_true_eq] at hp
      obtain ⟨a, ha, rfl⟩ := hp
      refine ⟨ha, ?_⟩
      obtain ⟨pre, post, heq, hpre⟩ := find?_split _ variants r hr
      refine ⟨pre, post, heq, fun v hv hmem => ?_⟩
      have := hpre v hv
      simp only [List.any_eq_false, decide_eq_false_iff_not] at this
      exact this _ hmem (by simp)

/-- Counterexample to C7 as stated: with two variants both of
bandwidth zero, "best" selects the second (last) variant, not the
first: Rust's `max_by` resolves ties towards the later element. -/
theorem selectVariant_claim_counterexample :
    selectVariant [⟨"a", ["a"], 0⟩, ⟨"b", ["b"], 0⟩] "best"
      = some ⟨"b", ["b"], 0⟩ ∧
    (⟨"b", ["b"], 0⟩ : StreamVariant) ≠ ⟨"a", ["a"], 0⟩ := by
  refine ⟨by decide, by decide⟩

/-- Witness for C7's amended statement at concrete variant lists. -/
theorem selectVariant_amended_witness :
    (∃ r, selectVariant ([⟨"a", ["a"], 3⟩, ⟨"b", ["b"], 7⟩] : List StreamVariant) "best" = some r ∧
      r ∈ ([⟨"a", ["a"], 3⟩, ⟨"b", ["b"], 7⟩] : List StreamVariant) ∧
      (∀ v ∈ ([⟨"a", ["a"], 3⟩, ⟨"b", ["b"], 7⟩] : List StreamVariant), v.bandwidth ≤ r.bandwidth) ∧
      (List.filter (fun v => v.bandwidth = r.bandwidth)
        ([⟨"a", ["a"], 3⟩, ⟨"b", ["b"], 7⟩] : List StreamVariant)).getLast? = some r) ∧
    (∃ r, selectVariant ([⟨"a", ["a"], 3⟩, ⟨"b", ["b"], 7⟩] : List StreamVariant) "worst" = some r ∧
      r ∈ ([⟨"a", ["a"], 3⟩, ⟨"b", ["b"], 7⟩] : List StreamVariant) ∧
      (∀ v ∈ ([⟨"a", ["a"], 3⟩, ⟨"b", ["b"], 7⟩] : List StreamVariant), r.bandwidth ≤ v.bandwidth)) ∧
    (selectVariant [(⟨"a", ["a"], 3⟩ : StreamVariant)] "720P" = none ↔
      ∀ v ∈ [(⟨"a", ["a"], 3⟩ : StreamVariant)],
        String.mk (lowerL "720P".data) ∉ v.aliases) :=
  ⟨selectVariant_amended.1 ⟨"a", ["a"], 3⟩ [⟨"b", ["b"], 7⟩],
   selectVariant_amended.2.1 ⟨"a", ["a"], 3⟩ [⟨"b", ["b"], 7⟩],
   (selectVariant_amended.2.2 [⟨"a", ["a"], 3⟩] "720P" (by decide) (by decide)).1⟩

/-! ## C3: sequence assignment in the media-playlist parser -/

/-- Per-line parser facts: a line either leaves the segment list
unchanged or appends exactly one segment whose sequence is
`media_sequence + number of segments already appended` (hls.rs:401,
454), and any line that is not a `#EXT-X-MEDIA-SEQUENCE:` tag leaves
`media_sequence` unchanged. -/
theorem stepLineL_spec (ll : Bool) (base : String) (st : ParseState)
    (line : List Char) :
    ((stepLineL ll base st line).segments = st.segments ∨
      ∃ s, (stepLineL ll base st line).segments = st.segments ++ [s] ∧
        s.sequence = st.mediaSequence + st.segments.length) ∧
    (startsWithL "#EXT-X-MEDIA-SEQUENCE:".data line = false →
      (stepLineL ll base st line).mediaSequence = st.mediaSequence) := by
  by_cases h1 : startsWithL "#EXT-X-TARGETDURATION:".data line = true
  · unfold stepLineL
    simp only [h1, if_true]
    refine ⟨Or.inl ?_, fun _ => ?_⟩ <;> (split <;> (try split) <;> rfl)
  rw [Bool.not_eq_true] at h1
  by_cases h2 : startsWithL "#EXT-X-MEDIA-SEQUENCE:".data line = true
  · unfold stepLineL
    simp only [h1, h2, Bool.false_eq_true, if_false, if_true]
    refine ⟨Or.inl ?_, fun hms => Bool.noConfusion hms⟩
    split <;> (try split) <;> rfl
  rw [Bool.not_eq_true] at h2
  by_cases h3 : startsWithL "#EXTINF:".data line = true
  · unfold stepLineL
    simp only [h1, h2, h3, Bool.false_eq_true, if_false, if_true]
    refine ⟨?_, ?_⟩ <;>
      first
        | trivial
        | exact Or.inl trivial
        | exact Or.inl rfl
        | exact fun hms => rfl
  rw [Bool.not_eq_true] at h3
  by_cases h4 : startsWithL "#EXT-X-DISCONTINUITY".data line = true
  · unfold stepLineL
    simp only [h1, h2, h3, h4, Bool.false_eq_true, if_false, if_true]
    refine ⟨?_, ?_⟩ <;>
      first
        | trivial
        | exact Or.inl trivial
        | exact Or.inl rfl
        | exact fun hms => rfl
  rw [Bool.not_eq_true] at h4
  by_cases h5 : startsWithL "#EXT-X-TWITCH-PREFETCH:".data line = true
  · unfold stepLineL
    simp only [h1, h2, h3, h4, h5, Bool.false_eq_true, if_false, if_true]
    cases ll with
    | false =>
      refine ⟨?_, ?_⟩ <;>
        first
          | trivial
          | exact Or.inl trivial
          | exact Or.inl rfl
          | exact fun hms => rfl
    | true =>
      refine ⟨?_, ?_⟩ <;>
        first
          | trivial
          | exact Or.inr ⟨_, rfl, rfl⟩
          | exact fun hms => rfl
  rw [Bool.not_eq_true] at h5
  by_cases h6 : startsWithL "#EXT-X-DATERANGE:".data line = true
  · unfold stepLineL
    simp only [h1, h2, h3, h4, h5, h6, Bool.false_eq_true, if_false, if_true]
    refine ⟨?_, ?_⟩ <;>
      first
        | trivial
        | exact Or.inl trivial
        | exact Or.inl rfl
        | exact fun hms => rfl
  rw [Bool.not_eq_true] at h6
  by_cases h7 : startsWithL "#EXT-X-ENDLIST".data line = true
  · unfold stepLineL
    simp only [h1, h2, h3, h4, h5, h6, h7, Bool.false_eq_true, if_false, if_true]
    refine ⟨?_, ?_⟩ <;>
      first
        | trivial
        | exact Or.inl trivial
        | exact Or.inl rfl
        | exact fun hms => rfl
  rw [Bool.not_eq_true] at h7
  by_cases h8 : startsWithL "#EXT-X-MAP:".data line = true
  · unfold stepLineL
    simp only [h1, h2, h3, h4, h5, h6, h7, h8, Bool.false_eq_true, if_false, if_true]
    refine ⟨?_, ?_⟩ <;>
      first
        | trivial
        | exact Or.inl trivial
        | (split <;> rfl)
        | exact Or.inl (by split <;> rfl)
        | exact fun hms => by split <;> rfl
  rw [Bool.not_eq_true] at h8
  by_cases h9 : startsWithL "#".data line = true
  · unfold stepLineL
    simp only [h1, h2, h3, h4, h5, h6, h7, h8, h9, Bool.false_eq_true, if_false, if_true]
    refine ⟨?_, ?_⟩ <;>
      first
        | trivial
        | exact Or.inl trivial
        | exact Or.inl rfl
        | exact fun hms => rfl
  rw [Bool.not_eq_true] at h9
  unfold stepLineL
  simp only [h1, h2, h3, h4, h5, h6, h7, h8, h9, Bool.false_eq_true, if_false, if_true]
  cases hpd : st.pendingDuration with
  | none =>
    refine ⟨?_, ?_⟩ <;>
      first
        | trivial
        | exact Or.inl trivial
        | exact Or.inl rfl
        | exact fun hms => rfl
  | some d =>
    refine ⟨?_, ?_⟩ <;>
      first
        | trivial
        | exact Or.inr ⟨_, rfl, rfl⟩
        | exact fun hms => rfl

/-- A `#EXT-X-MEDIA-SEQUENCE:` tag with a parseable value sets
`media_sequence` and changes nothing else (hls.rs:376-381). -/
theorem msTagSets (ll : Bool) (base : String) (st : ParseState) (v : List Char)
    (M : Nat) (hv : parseU64 v = some M) :
    stepLineL ll base st ("#EXT-X-MEDIA-SEQUENCE:".data ++ v)
      = { st with mediaSequence := M } := by
  have h0 : startsWithL "#EXT-X-TARGETDURATION:".data
      ("#EXT-X-MEDIA-SEQUENCE:".data ++ v) = false := by
    simp [startsWithL, String.data]
  have h1 : startsWithL "#EXT-X-MEDIA-SEQUENCE:".data
      ("#EXT-X-MEDIA-SEQUENCE:".data ++ v) = true := startsWithL_append_self _ _
  have he : ("#EXT-X-MEDIA-SEQUENCE:".data : List Char)
      = "#EXT-X-MEDIA-SEQUENCE".data ++ [':'] := by decide
  have h2 : splitOnceL ':' ("#EXT-X-MEDIA-SEQUENCE:".data ++ v)
      = some ("#EXT-X-MEDIA-SEQUENCE".data, v) := by
    rw [he, List.append_assoc, List.singleton_append]
    exact splitOnceL_append_cons ':' _ v (by decide)
  unfold stepLineL
  rw [h0, h1]
  simp only [Bool.false_eq_true, if_false, if_true, h2, hv]

/-- Fold invariant: from a state whose sequences already form
`M, M+1, …` and whose `media_sequence` is `M`, processing lines that
contain no further `MEDIA-SEQUENCE` tag keeps the sequences contiguous
from `M`. -/
theorem seqInvariant (ll : Bool) (base : String) :
    ∀ (lines : List String) (st : ParseState) (M : Nat),
      st.mediaSequence = M →
      st.segments.map (·.sequence) = List.range' M st.segments.length →
      (∀ l ∈ lines,
        startsWithL "#EXT-X-MEDIA-SEQUENCE:".data (trimL l.data) = false) →
      (lines.foldl (fun s l => stepLineL ll base s (trimL l.data)) st).segments.map
          (·.sequence)
        = List.range' M
            (lines.foldl (fun s l => stepLineL ll base s (trimL l.data)) st).segments.length ∧
      (lines.foldl (fun s l => stepLineL ll base s (trimL l.data)) st).mediaSequence = M := by
  intro lines
  induction lines with
  | nil => intro st M hM hseq _; exact ⟨hseq, hM⟩
  | cons l ls ih =>
    intro st M hM hseq h
    have hl : startsWithL "#EXT-X-MEDIA-SEQUENCE:".data (trimL l.data) = false :=
      h l (List.mem_cons_self _ _)
    have hls : ∀ l2 ∈ ls,
        startsWithL "#EXT-X-MEDIA-SEQUENCE:".data (trimL l2.data) = false :=
      fun l2 h2 => h l2 (List.mem_cons_of_mem _ h2)
    rw [List.foldl_cons]
    set st1 := stepLineL ll base st (trimL l.data) with hst1
    have hM1 : st1.mediaSequence = M := by
      rw [hst1, (stepLineL_spec ll base st (trimL l.data)).2 hl, hM]
    have hseq1 : st1.segments.map (·.sequence)
        = List.range' M st1.segments.length := by
      rcases (stepLineL_spec ll base st (trimL l.data)).1 with hsame | ⟨s, happ, hsval⟩
      · rw [hst1, hsame]
        exact hseq
      · have hs2 : s.sequence = M + st.segments.length := by rw [hsval, hM]
        rw [hst1, happ, List.map_append, hseq, List.length_append]
        simp [hs2, List.range'_concat]
    exact ih st1 M hM1 hseq1 hls

/-- C3.  Every appended segment (prefetch ones included) receives
sequence `media_sequence + number of segments already appended`; and for
a body whose `#EXT-X-MEDIA-SEQUENCE:M` tag (with a valid value) is the
first line and is followed by lines carrying no further
`MEDIA-SEQUENCE` tag, the N parsed segments receive exactly the
sequences `M, M+1, …, M+N-1`. -/
theorem sequenceAssignment :
    (∀ (ll : Bool) (base : String) (st : ParseState) (line : List Char)
        (s : MediaSegment),
      (stepLineL ll base st line).segments = st.segments ++ [s] →
      s.sequence = st.mediaSequence + st.segments.length) ∧
    (∀ (ll : Bool) (base : String) (v : List Char) (M : Nat) (rest : List String)
        (l0 : String),
      parseU64 v = some M →
      trimL l0.data = "#EXT-X-MEDIA-SEQUENCE:".data ++ v →
      (∀ l ∈ rest,
        startsWithL "#EXT-X-MEDIA-SEQUENCE:".data (trimL l.data) = false) →
      (parseLines ll base (l0 :: rest)).segments.map (·.sequence)
        = List.range' M (parseLines ll base (l0 :: rest)).segments.length) := by
  constructor
  · intro ll base st line s happ
    rcases (stepLineL_spec ll base st line).1 with hsame | ⟨s2, happ2, hval⟩
    · exfalso
      have hlen := congrArg List.length (hsame ▸ happ)
      simp at hlen
    · rw [happ2] at happ
      have h2 : s2 = s := by
        have g1 : (st.segments ++ [s2]).getLast? = some s2 := List.getLast?_concat _
        have g2 : (st.segments ++ [s]).getLast? = some s := List.getLast?_concat _
        rw [happ] at g1
        rw [g2] at g1
        exact (Option.some.inj g1).symm
      rw [← h2]
      exact hval
  · intro ll base v M rest l0 hv htrim h
    unfold parseLines
    rw [List.foldl_cons, htrim, msTagSets ll base initParseState v M hv]
    exact (seqInvariant ll base rest { initParseState with mediaSequence := M } M rfl
      (by simp [initParseState]) h).1

/-- Witness for C3 at the spec's own example body (sequences 100,
101). -/
theorem sequenceAssignment_witness :
    (parseLines false "http://x/"
      ("#EXT-X-MEDIA-SEQUENCE:100"
        :: ["#EXTINF:4.0,", "a.ts", "#EXTINF:4.0,", "b.ts"])).segments.map (·.sequence)
      = List.range' 100 (parseLines false "http://x/"
          ("#EXT-X-MEDIA-SEQUENCE:100"
            :: ["#EXTINF:4.0,", "a.ts", "#EXTINF:4.0,", "b.ts"])).segments.length :=
  sequenceAssignment.2 false "http://x/" "100".data 100
    ["#EXTINF:4.0,", "a.ts", "#EXTINF:4.0,", "b.ts"] "#EXT-X-MEDIA-SEQUENCE:100"
    (by decide) (by decide) (by decide)

/-! ## C8: the attribute-line tokenizer -/

/-- `dropWhile` is the identity when the head does not match. -/
theorem dropWhileHead (p : Char → Bool) (cs : List Char)
    (h : ∀ c, cs.head? = some c → p c = false) : cs.dropWhile p = cs := by
  cases cs with
  | nil => rfl
  | cons c cs2 =>
    rw [List.dropWhile_cons, h c rfl]
    simp

/-- Trimming is the identity when neither end is whitespace. -/
theorem trimL_eq_self (cs : List Char)
    (hh : ∀ c, cs.head? = some c → isWsChar c = false)
    (hl : ∀ c, cs.getLast? = some c → isWsChar c = false) : trimL cs = cs := by
  unfold trimL
  rw [dropWhileHead _ _ hh]
  rw [dropWhileHead _ cs.reverse (fun c hc => hl c (by rwa [List.head?_reverse] at hc))]
  exact List.reverse_reverse cs

/-- Quote-stripping is the identity on a quote-free list. -/
theorem trimQuotesL_plain (v : List Char) (h : ∀ c ∈ v, c ≠ '"') :
    trimQuotesL v = v := by
  unfold trimQuotesL
  have hh : ∀ c, v.head? = some c → (c == '"') = false := by
    intro c hc
    simp [h c (List.mem_of_mem_head? hc)]
  rw [dropWhileHead _ _ hh]
  have hl : ∀ c, v.reverse.head? = some c → (c == '"') = false := by
    intro c hc
    rw [List.head?_reverse] at hc
    simp [h c (List.mem_of_mem_getLast? (Option.mem_def.mpr hc))]
  rw [dropWhileHead _ _ hl]
  exact List.reverse_reverse v

/-- Quote-stripping removes the surrounding quotes of a quoted
quote-free value. -/
theorem trimQuotesL_quoted (v : List Char) (h : ∀ c ∈ v, c ≠ '"') :
    trimQuotesL ('"' :: (v ++ ['"'])) = v := by
  unfold trimQuotesL
  rw [List.dropWhile_cons]
  simp only [beq_self_eq_true, if_true]
  cases v with
  | nil => simp
  | cons c v2 =>
    have hc : c ≠ '"' := h c (List.mem_cons_self _ _)
    rw [List.cons_append, List.dropWhile_cons]
    have hcq : (c == '"') = false := by simp [hc]
    rw [hcq]
    simp only [Bool.false_eq_true, if_false]
    have e : (c :: (v2 ++ ['"'])).reverse = '"' :: (v2.reverse ++ [c]) := by simp
    rw [e, List.dropWhile_cons]
    simp only [beq_self_eq_true, if_true]
    have hh2 : ∀ d, (v2.reverse ++ [c]).head? = some d → (d == '"') = false := by
      intro d hd
      have hmem := List.mem_of_mem_head? hd
      rcases List.mem_append.mp hmem with hm | hm
      · simp [h d (List.mem_cons_of_mem _ (List.mem_reverse.mp hm))]
      · rw [List.mem_singleton] at hm
        subst hm
        simp [hc]
    rw [dropWhileHead _ _ hh2]
    simp

/-- A character that is neither a quote nor an unquoted comma is
appended to the current piece. -/
theorem attrPiecesGo_char (acc : List (List Char)) (cur : List Char)
    (inQ : Bool) (rest : List Char) (c : Char) (hq : c ≠ '"')
    (hcm : inQ = false → c ≠ ',') :
    attrPiecesGo acc cur inQ (c :: rest) = attrPiecesGo acc (cur ++ [c]) inQ rest := by
  have hcond : (c = ',' && !inQ) = false := by
    cases inQ with
    | true => simp
    | false => simp [hcm rfl]
  conv_lhs => unfold attrPiecesGo
  rw [hcond]
  simp only [Bool.false_eq_true, if_false]
  rw [if_neg hq]

/-- A double quote toggles the quote state and is kept in the piece. -/
theorem attrPiecesGo_quote (acc : List (List Char)) (cur : List Char)
    (inQ : Bool) (rest : List Char) :
    attrPiecesGo acc cur inQ ('"' :: rest)
      = attrPiecesGo acc (cur ++ ['"']) (!inQ) rest := by
  have hcond : (('"' : Char) = ',' && !inQ) = false := by simp
  conv_lhs => unfold attrPiecesGo
  rw [hcond]
  simp

/-- An unquoted comma pushes the trimmed current piece (if non-empty)
and starts a new one. -/
theorem attrPiecesGo_comma (acc : List (List Char)) (cur rest : List Char) :
    attrPiecesGo acc cur false (',' :: rest)
      = attrPiecesGo (acc ++ (if cur.isEmpty then [] else [trimL cur])) [] false rest := by
  have hcond : ((',' : Char) = ',' && !false) = true := by simp
  conv_lhs => unfold attrPiecesGo
  rw [hcond]
  simp only [if_true]

/-- A run of characters containing no quotes and no unquoted commas is
moved wholesale into the current piece. -/
theorem attrPiecesGo_skip (acc : List (List Char)) (inQ : Bool) :
    ∀ (cs cur rest : List Char),
      (∀ c ∈ cs, c ≠ '"' ∧ (inQ = false → c ≠ ',')) →
      attrPiecesGo acc cur inQ (cs ++ rest) = attrPiecesGo acc (cur ++ cs) inQ rest := by
  intro cs
  induction cs with
  | nil => intro cur rest _; rw [List.nil_append, List.append_nil]
  | cons c cs2 ih =>
    intro cur rest h
    obtain ⟨hq, hcm⟩ := h c (List.mem_cons_self _ _)
    rw [List.cons_append, attrPiecesGo_char acc cur inQ (cs2 ++ rest) c hq hcm,
      ih (cur ++ [c]) rest (fun d hd => h d (List.mem_cons_of_mem _ hd)),
      List.append_assoc, List.singleton_append]

/-- Trimming is the identity on whitespace-free lists. -/
theorem trimL_of_all_nonws (cs : List Char) (h : ∀ c ∈ cs, isWsChar c = false) :
    trimL cs = cs :=
  trimL_eq_self cs (fun c hc => h c (List.mem_of_mem_head? hc))
    (fun c hc => h c (List.mem_of_mem_getLast? (Option.mem_def.mpr hc)))


/-- Whitespace characters are not quotes, commas or equals signs. -/
theorem wsChar_ne (c : Char) (h : isWsChar c = true) :
    c ≠ '"' ∧ c ≠ ',' ∧ c ≠ '=' := by
  refine ⟨fun e => ?_, fun e => ?_, fun e => ?_⟩ <;> subst e <;> exact absurd h (by decide)

/-- A whitespace character satisfies the side condition of
`attrPiecesGo_skip` outside quotes. -/
theorem wsSkipOk (c : Char) (h : isWsChar c = true) :
    c ≠ '"' ∧ (false = false → c ≠ ',') :=
  ⟨(wsChar_ne c h).1, fun _ => (wsChar_ne c h).2.1⟩

/-- `dropWhile` jumps over a block whose characters all match. -/
theorem dropWhile_append_all (p : Char → Bool) (w Y : List Char)
    (h : ∀ c ∈ w, p c = true) :
    (w ++ Y).dropWhile p = Y.dropWhile p := by
  induction w with
  | nil => rfl
  | cons c w2 ih =>
    rw [List.cons_append, List.dropWhile_cons, h c (List.mem_cons_self _ _)]
    simp only [if_true]
    exact ih (fun d hd => h d (List.mem_cons_of_mem _ hd))

/-- Trimming removes exactly the whitespace runs wrapped around a list
whose own endpoints are not whitespace. -/
theorem trimL_ws_wrap (wa wb X : List Char)
    (hwa : ∀ c ∈ wa, isWsChar c = true)
    (hwb : ∀ c ∈ wb, isWsChar c = true)
    (hh : ∀ c, X.head? = some c → isWsChar c = false)
    (hl : ∀ c, X.getLast? = some c → isWsChar c = false) :
    trimL (wa ++ X ++ wb) = X := by
  unfold trimL
  rw [List.append_assoc, dropWhile_append_all isWsChar wa (X ++ wb) hwa]
  cases X with
  | nil =>
    rw [List.nil_append]
    have hwbnil : wb.dropWhile isWsChar = [] := by
      have h2 := dropWhile_append_all isWsChar wb [] hwb
      rwa [List.append_nil] at h2
    rw [hwbnil]
    rfl
  | cons x X2 =>
    have hx : isWsChar x = false := hh x rfl
    rw [List.cons_append, List.dropWhile_cons, hx]
    simp only [Bool.false_eq_true, if_false]
    have e : (x :: (X2 ++ wb)).reverse = wb.reverse ++ (x :: X2).reverse := by simp
    rw [e, dropWhile_append_all isWsChar wb.reverse (x :: X2).reverse
      (fun c hc => hwb c (List.mem_reverse.mp hc))]
    rw [dropWhileHead isWsChar (x :: X2).reverse ?hrev]
    · exact List.reverse_reverse _
    case hrev =>
      intro c hc
      rw [List.head?_reverse] at hc
      exact hl c hc

/-- C8 (amended).  For a well-formed two-attribute line whose first
value is quoted — the quoted value `v` may contain commas, equals signs
and spaces — with arbitrary whitespace runs `w1 … w8` around the
pieces, around each `=` and around each value, the tokenizer splits
only at the comma outside the quotes, splits each piece once on `=`,
trims the surrounding whitespace from the key and the value, and strips
the double quotes around the value, yielding exactly the two intended
pairs.  The whitespace runs are arbitrary, so the trimming clause is
genuinely exercised: a tokenizer that fails to trim any of the eight
positions falsifies this statement.  (Quote-stripping removes every
leading and trailing quote, not exactly one — see the counterexample.) -/
theorem parseAttr_family
    (w1 w2 w3 w4 w5 w6 w7 w8 k v k2 v2 : List Char)
    (hw1 : ∀ c ∈ w1, isWsChar c = true) (hw2 : ∀ c ∈ w2, isWsChar c = true)
    (hw3 : ∀ c ∈ w3, isWsChar c = true) (hw4 : ∀ c ∈ w4, isWsChar c = true)
    (hw5 : ∀ c ∈ w5, isWsChar c = true) (hw6 : ∀ c ∈ w6, isWsChar c = true)
    (hw7 : ∀ c ∈ w7, isWsChar c = true) (hw8 : ∀ c ∈ w8, isWsChar c = true)
    (hk0 : k ≠ [])
    (hk : ∀ c ∈ k, c ≠ ',' ∧ c ≠ '"' ∧ c ≠ '=' ∧ isWsChar c = false)
    (hv : ∀ c ∈ v, c ≠ '"')
    (hk20 : k2 ≠ [])
    (hk2 : ∀ c ∈ k2, c ≠ ',' ∧ c ≠ '"' ∧ c ≠ '=' ∧ isWsChar c = false)
    (hv20 : v2 ≠ [])
    (hv2 : ∀ c ∈ v2, c ≠ ',' ∧ c ≠ '"' ∧ isWsChar c = false) :
    parseAttrPairsL (w1 ++ (k ++ (w2 ++ ('=' :: (w3 ++ ('"' :: (v ++ ('"' :: (w4
        ++ (',' :: (w5 ++ (k2 ++ (w6 ++ ('=' :: (w7 ++ (v2 ++ w8))))))))))))))))
      = [(k, v), (k2, v2)] := by
  have hwq : isWsChar '"' = false := by decide
  have hhX : ∀ c, ((k ++ w2) ++ '=' :: (w3 ++ ('"' :: (v ++ ['"'])))).head? = some c →
      isWsChar c = false := by
    intro c hc
    rw [List.append_assoc] at hc
    cases k with
    | nil => exact absurd rfl hk0
    | cons a k3 =>
      rw [List.cons_append, List.head?_cons] at hc
      injection hc with hc
      exact hc ▸ (hk a (List.mem_cons_self _ _)).2.2.2
  have hlX : ∀ c, ((k ++ w2) ++ '=' :: (w3 ++ ('"' :: (v ++ ['"'])))).getLast? = some c →
      isWsChar c = false := by
    intro c hc
    have e : ((k ++ w2) ++ '=' :: (w3 ++ ('"' :: (v ++ ['"']))))
        = (((k ++ w2) ++ '=' :: w3) ++ ('"' :: v)) ++ ['"'] := by simp
    rw [e, List.getLast?_concat] at hc
    injection hc with hc
    exact hc ▸ hwq
  have hhY : ∀ c, ((k2 ++ w6) ++ '=' :: (w7 ++ v2)).head? = some c →
      isWsChar c = false := by
    intro c hc
    rw [List.append_assoc] at hc
    cases k2 with
    | nil => exact absurd rfl hk20
    | cons a k3 =>
      rw [List.cons_append, List.head?_cons] at hc
      injection hc with hc
      exact hc ▸ (hk2 a (List.mem_cons_self _ _)).2.2.2
  have hlY : ∀ c, ((k2 ++ w6) ++ '=' :: (w7 ++ v2)).getLast? = some c →
      isWsChar c = false := by
    intro c hc
    have e : ((k2 ++ w6) ++ '=' :: (w7 ++ v2)) = ((k2 ++ w6) ++ '=' :: w7) ++ v2 := by
      simp
    rw [e, List.getLast?_append_of_ne_nil _ hv20] at hc
    exact (hv2 c (List.mem_of_mem_getLast? (Option.mem_def.mpr hc))).2.2
  have hstep : attrPieces (w1 ++ (k ++ (w2 ++ ('=' :: (w3 ++ ('"' :: (v ++ ('"' :: (w4
      ++ (',' :: (w5 ++ (k2 ++ (w6 ++ ('=' :: (w7 ++ (v2 ++ w8))))))))))))))))
      = [(k ++ w2) ++ '=' :: (w3 ++ ('"' :: (v ++ ['"']))),
         (k2 ++ w6) ++ '=' :: (w7 ++ v2)] := by
    unfold attrPieces
    have e1 : w1 ++ (k ++ (w2 ++ ('=' :: (w3 ++ ('"' :: (v ++ ('"' :: (w4
        ++ (',' :: (w5 ++ (k2 ++ (w6 ++ ('=' :: (w7 ++ (v2 ++ w8)))))))))))))))
        = (w1 ++ (k ++ (w2 ++ ('=' :: w3))))
          ++ ('"' :: (v ++ ('"' :: (w4 ++ (',' :: (w5 ++ (k2 ++ (w6
            ++ ('=' :: (w7 ++ (v2 ++ w8))))))))))) := by
      simp
    rw [e1, attrPiecesGo_skip [] false (w1 ++ (k ++ (w2 ++ ('=' :: w3)))) [] _ ?hcsA]
    case hcsA =>
      intro c hc
      rcases List.mem_append.mp hc with hm | hm
      · exact wsSkipOk c (hw1 c hm)
      rcases List.mem_append.mp hm with hm2 | hm2
      · exact ⟨(hk c hm2).2.1, fun _ => (hk c hm2).1⟩
      rcases List.mem_append.mp hm2 with hm3 | hm3
      · exact wsSkipOk c (hw2 c hm3)
      rcases List.mem_cons.mp hm3 with hm4 | hm4
      · subst hm4
        exact ⟨by decide, fun _ => by decide⟩
      · exact wsSkipOk c (hw3 c hm4)
    rw [List.nil_append, attrPiecesGo_quote]
    simp only [Bool.not_false]
    rw [attrPiecesGo_skip _ true v _ _ ?hcsV]
    case hcsV =>
      intro c hc
      exact ⟨hv c hc, fun hf => Bool.noConfusion hf⟩
    rw [attrPiecesGo_quote]
    simp only [Bool.not_true]
    rw [attrPiecesGo_skip _ false w4 _ _ ?hcsW4]
    case hcsW4 =>
      intro c hc
      exact wsSkipOk c (hw4 c hc)
    rw [attrPiecesGo_comma]
    have e2 : w5 ++ (k2 ++ (w6 ++ ('=' :: (w7 ++ (v2 ++ w8)))))
        = (w5 ++ (k2 ++ (w6 ++ ('=' :: (w7 ++ (v2 ++ w8)))))) ++ ([] : List Char) := by
      simp
    rw [e2, attrPiecesGo_skip _ false (w5 ++ (k2 ++ (w6 ++ ('=' :: (w7 ++ (v2 ++ w8))))))
      [] [] ?hcsB]
    case hcsB =>
      intro c hc
      rcases List.mem_append.mp hc with hm | hm
      · exact wsSkipOk c (hw5 c hm)
      rcases List.mem_append.mp hm with hm2 | hm2
      · exact ⟨(hk2 c hm2).2.1, fun _ => (hk2 c hm2).1⟩
      rcases List.mem_append.mp hm2 with hm3 | hm3
      · exact wsSkipOk c (hw6 c hm3)
      rcases List.mem_cons.mp hm3 with hm4 | hm4
      · subst hm4
        exact ⟨by decide, fun _ => by decide⟩
      rcases List.mem_append.mp hm4 with hm5 | hm5
      · exact wsSkipOk c (hw7 c hm5)
      rcases List.mem_append.mp hm5 with hm6 | hm6
      · exact ⟨(hv2 c hm6).2.1, fun _ => (hv2 c hm6).1⟩
      · exact wsSkipOk c (hw8 c hm6)
    show attrPiecesGo _ _ false [] = _
    unfold attrPiecesGo
    have hne1 : (((((w1 ++ (k ++ (w2 ++ ('=' :: w3)))) ++ ['"']) ++ v) ++ ['"'])
        ++ w4).isEmpty = false := by
      simp
    have hne2 : (([] : List Char)
        ++ (w5 ++ (k2 ++ (w6 ++ ('=' :: (w7 ++ (v2 ++ w8))))))).isEmpty = false := by
      cases w5 with
      | cons a w5b => simp
      | nil =>
        cases k2 with
        | nil => exact absurd rfl hk20
        | cons a k3 => simp
    rw [hne1, hne2]
    simp only [Bool.false_eq_true, if_false]
    have e3 : ((((w1 ++ (k ++ (w2 ++ ('=' :: w3)))) ++ ['"']) ++ v) ++ ['"']) ++ w4
        = w1 ++ (((k ++ w2) ++ '=' :: (w3 ++ ('"' :: (v ++ ['"'])))) ++ w4) := by
      simp
    have e4 : ([] : List Char) ++ (w5 ++ (k2 ++ (w6 ++ ('=' :: (w7 ++ (v2 ++ w8))))))
        = w5 ++ (((k2 ++ w6) ++ '=' :: (w7 ++ v2)) ++ w8) := by
      simp
    rw [e3, e4]
    rw [show w1 ++ (((k ++ w2) ++ '=' :: (w3 ++ ('"' :: (v ++ ['"'])))) ++ w4)
      = w1 ++ ((k ++ w2) ++ '=' :: (w3 ++ ('"' :: (v ++ ['"'])))) ++ w4
      from (List.append_assoc _ _ _).symm]
    rw [show w5 ++ (((k2 ++ w6) ++ '=' :: (w7 ++ v2)) ++ w8)
      = w5 ++ ((k2 ++ w6) ++ '=' :: (w7 ++ v2)) ++ w8
      from (List.append_assoc _ _ _).symm]
    rw [trimL_ws_wrap w1 w4 _ hw1 hw4 hhX hlX,
      trimL_ws_wrap w5 w8 _ hw5 hw8 hhY hlY]
    simp
  unfold parseAttrPairsL
  rw [hstep]
  have hsp1 : splitOnceL '=' ((k ++ w2) ++ '=' :: (w3 ++ ('"' :: (v ++ ['"']))))
      = some (k ++ w2, w3 ++ ('"' :: (v ++ ['"']))) := by
    apply splitOnceL_append_cons
    intro hc
    rcases List.mem_append.mp hc with hm | hm
    · exact (hk '=' hm).2.2.1 rfl
    · exact (wsChar_ne '=' (hw2 '=' hm)).2.2 rfl
  have hsp2 : splitOnceL '=' ((k2 ++ w6) ++ '=' :: (w7 ++ v2))
      = some (k2 ++ w6, w7 ++ v2) := by
    apply splitOnceL_append_cons
    intro hc
    rcases List.mem_append.mp hc with hm | hm
    · exact (hk2 '=' hm).2.2.1 rfl
    · exact (wsChar_ne '=' (hw6 '=' hm)).2.2 rfl
  have htk : trimL (k ++ w2) = k := by
    have h := trimL_ws_wrap [] w2 k (fun c hc => absurd hc (List.not_mem_nil c)) hw2
      (fun c hc => (hk c (List.mem_of_mem_head? hc)).2.2.2)
      (fun c hc => (hk c (List.mem_of_mem_getLast? (Option.mem_def.mpr hc))).2.2.2)
    rwa [List.nil_append] at h
  have htk2 : trimL (k2 ++ w6) = k2 := by
    have h := trimL_ws_wrap [] w6 k2 (fun c hc => absurd hc (List.not_mem_nil c)) hw6
      (fun c hc => (hk2 c (List.mem_of_mem_head? hc)).2.2.2)
      (fun c hc => (hk2 c (List.mem_of_mem_getLast? (Option.mem_def.mpr hc))).2.2.2)
    rwa [List.nil_append] at h
  have htv : trimL (w3 ++ ('"' :: (v ++ ['"']))) = '"' :: (v ++ ['"']) := by
    have hh : ∀ c, ('"' :: (v ++ ['"'])).head? = some c → isWsChar c = false := by
      intro c hc
      rw [List.head?_cons] at hc
      injection hc with hc
      exact hc ▸ hwq
    have hl : ∀ c, ('"' :: (v ++ ['"'])).getLast? = some c → isWsChar c = false := by
      intro c hc
      have e : ('"' :: (v ++ ['"']) : List Char) = ('"' :: v) ++ ['"'] := by simp
      rw [e, List.getLast?_concat] at hc
      injection hc with hc
      exact hc ▸ hwq
    have h := trimL_ws_wrap w3 [] ('"' :: (v ++ ['"'])) hw3
      (fun c hc => absurd hc (List.not_mem_nil c)) hh hl
    rwa [List.append_nil] at h
  have htv2 : trimL (w7 ++ v2) = v2 := by
    have h := trimL_ws_wrap w7 [] v2 hw7 (fun c hc => absurd hc (List.not_mem_nil c))
      (fun c hc => (hv2 c (List.mem_of_mem_head? hc)).2.2)
      (fun c hc => (hv2 c (List.mem_of_mem_getLast? (Option.mem_def.mpr hc))).2.2)
    rwa [List.append_nil] at h
  have hsp1r : splitOnceL '=' (k ++ (w2 ++ '=' :: (w3 ++ ('"' :: (v ++ ['"'])))))
      = some (k ++ w2, w3 ++ ('"' :: (v ++ ['"']))) := by
    rw [← List.append_assoc]
    exact hsp1
  have hsp2r : splitOnceL '=' (k2 ++ (w6 ++ '=' :: (w7 ++ v2)))
      = some (k2 ++ w6, w7 ++ v2) := by
    rw [← List.append_assoc]
    exact hsp2
  have hq1 : trimQuotesL ('"' :: (v ++ ['"'])) = v := trimQuotesL_quoted v hv
  have hq2 : trimQuotesL v2 = v2 := trimQuotesL_plain v2 (fun c hc => (hv2 c hc).2.1)
  simp [hsp1r, hsp2r, htk, htk2, htv, htv2, hq1, hq2]

/-- Counterexample to C8 as stated: for the value `""x""` the code's
`trim_matches('"')` strips BOTH leading and BOTH trailing quote
characters, producing `x`, whereas stripping exactly one leading and
one trailing quote would leave `"x"`. -/
theorem parseAttr_counterexample :
    parseAttributeLine "A=\"\"x\"\"" = [("A", "x")] ∧ ("x" : String) ≠ "\"x\"" := by
  refine ⟨by decide, by decide⟩

/-- Witness for C8's amended statement: every whitespace run is
non-empty (spaces and a tab), so each trimming position is exercised,
and the quoted value contains a comma that does not split. -/
theorem parseAttr_family_witness :
    parseAttrPairsL (" ".data ++ ("KEY".data ++ (" ".data ++ ('=' :: (" ".data
        ++ ('"' :: ("a,b".data ++ ('"' :: (" ".data ++ (',' :: ("\t".data
        ++ ("J".data ++ (" ".data ++ ('=' :: (" ".data
        ++ ("2".data ++ " ".data))))))))))))))))
      = [("KEY".data, "a,b".data), ("J".data, "2".data)] :=
  parseAttr_family " ".data " ".data " ".data " ".data "\t".data " ".data " ".data
    " ".data "KEY".data "a,b".data "J".data "2".data
    (by decide) (by decide) (by decide) (by decide) (by decide) (by decide) (by decide)
    (by decide) (by decide) (by decide) (by decide) (by decide) (by decide) (by decide)
    (by decide)
